import Mathlib

/-!
Shallow embedding of `src/demo.py` (ranfysvalle02/mdb-perf-rnd): the dual
write-strategy benchmark engine.  Pure data flow is translated directly; the
external MongoDB store is modelled by an oracle `flushOk` saying whether a
given bulk call succeeds, and wall-clock durations (values of
`time.monotonic()` differences, pure measurements that no control flow
depends on) are modelled by an oracle `dur`.  Python strings are embedded as
`List Char`; Python dict-of-records input `data` is embedded as its item
list `List (String × PosRecord)` (iteration order of a Python dict is
insertion order).  Writers additionally return the ordered trace of bulk
write calls they issue, so that claims about which flush calls happen can be
stated; the trace is an observation added by the embedding and never feeds
back into the computation.
-/

namespace MdbPerf

/-- One generated position report.  The routing discriminator `posmsgtype`
is modelled as optional, so that a record missing the field (Python
`KeyError` on `report["posmsgtype"]`) is representable; the remaining
payload scalars (floats `latitude`, `longitude`, `altitude`, `speed`,
`time_added`), which no control flow in the program inspects, are abstracted
into an opaque `payload` tag that keeps distinct records distinguishable. -/
structure PosRecord where
  posmsgtype : Option String
  payload : Nat
deriving DecidableEq

/-- A single MongoDB bulk operation, as built by both writers:
`UpdateOne({"flightid": row}, {"$set": writedata}, upsert=True)` or
`InsertOne(writedata)`. -/
inductive WriteOp where
  | updateOne (flightid : String) (doc : PosRecord)
  | insertOne (doc : PosRecord)
deriving DecidableEq

/-- The `{'num_operations': ..., 'duration': ...}` entry stored in
`write_stats`; durations are oracle-supplied integers. -/
structure WriteStat where
  num_operations : Nat
  duration : Int
deriving DecidableEq

def FLIGHT_COLLECTION : List Char := "flightcollection".data

def POSITION_COLLECTION : List Char := "positioncollection".data

def SURFACE_COLLECTION : List Char := "surfacecollection".data

/-- Message of the Python `KeyError` raised by `report["posmsgtype"]` when
the field is absent. -/
def keyErrorMsg : List Char := "KeyError: posmsgtype".data

/-- Message of the exception re-raised by the naive writer when a
`bulk_write` call fails (src/demo.py line 90). -/
def bulkWriteErrMsg (c : List Char) : List Char :=
  "Exception during position bulk_write operation to ".data ++ c

/-- Message of the `ZeroDivisionError` raised by
`(len(data_items) + batch_size - 1) // batch_size` when `batch_size == 0`. -/
def zeroDivMsg : List Char := "ZeroDivisionError: integer division or modulo by zero".data

/-- The partition loop of `original_write_position_mongo_database`
(src/demo.py lines 62-79): one scan over the record items, appending an
upsert for every record to the flight bucket and an insert to the position
or surface bucket according to `writedata["posmsgtype"] == "position"`.
A record with no `posmsgtype` raises (`KeyError`), modelled as `.error`;
buckets are returned in source order (flight, position, surface). -/
def naiveOperations : List (String × PosRecord) →
    Except (List Char) (List WriteOp × List WriteOp × List WriteOp)
  | [] => .ok ([], [], [])
  | (row, writedata) :: rest =>
    match writedata.posmsgtype with
    | none => .error keyErrorMsg
    | some t =>
      match naiveOperations rest with
      | .error e => .error e
      | .ok (fl, pos, sur) =>
        .ok (WriteOp.updateOne row writedata :: fl,
             if t == "position" then WriteOp.insertOne writedata :: pos else pos,
             if t == "position" then sur else WriteOp.insertOne writedata :: sur)

/-- The flush loop of the naive writer (src/demo.py lines 83-97):
`for collection_name, ops in operations.items(): if ops: ... bulk_write ...`.
An empty bucket is skipped; a failing `bulk_write` re-raises immediately
(`.error`), abandoning the remaining collections.  Returns the ordered
trace of issued bulk calls `(collection, len(ops))` together with either
the accumulated `write_stats` or the error. -/
def flushLoop (flushOk : List Char → Bool) (dur : List Char → Int) :
    List (List Char × List WriteOp) →
    List (List Char × Nat) × Except (List Char) (List (List Char × WriteStat))
  | [] => ([], Except.ok [])
  | (name, ops) :: rest =>
    if ops.isEmpty then flushLoop flushOk dur rest
    else if flushOk name then
      match flushLoop flushOk dur rest with
      | (tr, res) =>
        ((name, ops.length) :: tr,
         res.map (fun stats => (name, WriteStat.mk ops.length (dur name)) :: stats))
    else ([(name, ops.length)], Except.error (bulkWriteErrMsg name))

/-- `original_write_position_mongo_database(db, data)` (src/demo.py lines
62-99): build the three buckets in one scan, then flush each non-empty
bucket with a single `bulk_write` in dict insertion order flight, position,
surface.  The `db` collaborator is the oracle pair `(flushOk, dur)`. -/
def original_write_position_mongo_database (flushOk : List Char → Bool)
    (dur : List Char → Int) (data : List (String × PosRecord)) :
    List (List Char × Nat) × Except (List Char) (List (List Char × WriteStat)) :=
  match naiveOperations data with
  | .error e => ([], .error e)
  | .ok (fl, pos, sur) =>
    flushLoop flushOk dur
      [(FLIGHT_COLLECTION, fl), (POSITION_COLLECTION, pos), (SURFACE_COLLECTION, sur)]

/-- Clamp of one bound of a Python slice `l[a:b]`: a negative index counts
from the end of the list, a nonnegative one is cut off at the length. -/
def pyIndexClamp (n : Nat) (i : Int) : Nat :=
  if i < 0 then ((n : Int) + i).toNat else min i.toNat n

/-- Python list slice `l[a:b]` (step 1) for integer bounds. -/
def pySlice {α : Type} (l : List α) (a b : Int) : List α :=
  (l.take (pyIndexClamp l.length b)).drop (pyIndexClamp l.length a)

/-- `total_batches = (len(data_items) + batch_size - 1) // batch_size`
(src/demo.py line 107); Python `//` is flooring division (`Int.fdiv`). -/
def totalBatches (n : Nat) (batch_size : Int) : Int :=
  ((n : Int) + batch_size - 1).fdiv batch_size

/-- The chunk list of the batched writer (src/demo.py lines 111-114):
`data_items[batch_num*batch_size : min(batch_num*batch_size+batch_size, len)]`
for `batch_num in range(total_batches)` (an `Int.toNat` on the range bound:
Python `range` of a nonpositive number is empty). -/
def pyBatches {α : Type} (l : List α) (batch_size : Int) : List (List α) :=
  (List.range (totalBatches l.length batch_size).toNat).map
    (fun (k : Nat) => pySlice l ((k : Int) * batch_size)
      (min ((k : Int) * batch_size + batch_size) (l.length : Int)))

/-- Insertion of one key-value pair into a Python dict built from a pair
list: an existing key has its value replaced in place, a new key is
appended. -/
def pyDictInsert (m : List (String × PosRecord)) (kv : String × PosRecord) :
    List (String × PosRecord) :=
  if m.any (fun p => p.1 == kv.1) then
    m.map (fun p => if p.1 == kv.1 then (p.1, kv.2) else p)
  else m ++ [kv]

/-- `dict(pairs)` for a Python pair list — models
`data_batch = dict(data_items[batch_start:batch_end])` (src/demo.py line 114). -/
def pyDict (l : List (String × PosRecord)) : List (String × PosRecord) :=
  l.foldl pyDictInsert []

/-- The per-chunk partition loop of the batched writer (src/demo.py lines
116-132): updates for the flight collection plus raw documents for the
position/surface collections, split on `report["posmsgtype"] == "position"`;
a record with no `posmsgtype` raises (`KeyError`), modelled as `.error`. -/
def chunkBuckets : List (String × PosRecord) →
    Except (List Char) (List WriteOp × List PosRecord × List PosRecord)
  | [] => .ok ([], [], [])
  | (flight_id, report) :: rest =>
    match report.posmsgtype with
    | none => .error keyErrorMsg
    | some t =>
      match chunkBuckets rest with
      | .error e => .error e
      | .ok (ups, poss, surs) =>
        .ok (WriteOp.updateOne flight_id report :: ups,
             if t == "position" then report :: poss else poss,
             if t == "position" then surs else report :: surs)

/-- The write tasks dispatched for one chunk (src/demo.py lines 156-180):
one task per non-empty bucket, created in source order flight, position,
surface; a task is the pair (collection name, number of operations). -/
def chunkTaskList (ups : List WriteOp) (poss surs : List PosRecord) :
    List (List Char × Nat) :=
  (if ups.isEmpty then [] else [(FLIGHT_COLLECTION, ups.length)]) ++
    (if poss.isEmpty then [] else [(POSITION_COLLECTION, poss.length)]) ++
    (if surs.isEmpty then [] else [(SURFACE_COLLECTION, surs.length)])

/-- `write_stats_key = f"{collection_name}_batch_{batch_num}"`
(src/demo.py line 145). -/
def statsKey (c : List Char) (batch_num : Nat) : List Char :=
  c ++ "_batch_".data ++ (Nat.repr batch_num).data

/-- `perform_write` (src/demo.py lines 134-154) acting on the accumulated
`(write_stats, trace)`: the bulk call for a non-empty bucket is always
attempted (recorded in the trace); on success a `write_stats` entry keyed
by `statsKey` is added, and an exception (`flushOk` false) is caught and
logged, adding no entry and propagating nothing.  The emptiness test of
`operations_list` has already happened in `chunkTaskList`. -/
def perform_write (flushOk : List Char → Nat → Bool) (dur : List Char → Nat → Int)
    (batch_num : Nat)
    (acc : List (List Char × WriteStat) × List (List Char × Nat × Nat))
    (task : List Char × Nat) :
    List (List Char × WriteStat) × List (List Char × Nat × Nat) :=
  let trace := acc.2 ++ [(task.1, batch_num, task.2)]
  if flushOk task.1 batch_num then
    (acc.1 ++ [(statsKey task.1 batch_num, WriteStat.mk task.2 (dur task.1 batch_num))],
     trace)
  else (acc.1, trace)

/-- The chunk loop of the batched writer (src/demo.py lines 111-188):
chunks are processed strictly sequentially; within a chunk the tasks of the
non-empty buckets run either sequentially (`use_multithreading = False`) or
as threads that are all started and then all joined before the next chunk
(`use_multithreading = True`).  Thread interleaving is modelled by the
schedule `sched`, which reorders the task list of each chunk; with
`use_multithreading = False` the schedule is not consulted.  A `KeyError`
in the partition loop is uncaught and aborts the whole run. -/
def optimizedGo (flushOk : List Char → Nat → Bool) (dur : List Char → Nat → Int)
    (use_multithreading : Bool)
    (sched : Nat → List (List Char × Nat) → List (List Char × Nat)) :
    List (Nat × List (String × PosRecord)) →
    List (List Char × WriteStat) → List (List Char × Nat × Nat) →
    List (List Char × Nat × Nat) × Except (List Char) (List (List Char × WriteStat))
  | [], stats, trace => (trace, .ok stats)
  | (batch_num, chunk) :: rest, stats, trace =>
    match chunkBuckets (pyDict chunk) with
    | .error e => (trace, .error e)
    | .ok (ups, poss, surs) =>
      let tasks0 := chunkTaskList ups poss surs
      let tasks := if use_multithreading then sched batch_num tasks0 else tasks0
      let acc := tasks.foldl (perform_write flushOk dur batch_num) (stats, trace)
      optimizedGo flushOk dur use_multithreading sched rest acc.1 acc.2

/-- `optimized_write_position_mongo_database(db, data, batch_size,
use_multithreading)` (src/demo.py lines 105-190).  `batch_size == 0` raises
`ZeroDivisionError` at the `total_batches` computation, before any chunk is
touched.  Returns the ordered trace of attempted bulk calls
`(collection, batch_num, count)` together with the final `write_stats` (or
the uncaught error). -/
def optimized_write_position_mongo_database (flushOk : List Char → Nat → Bool)
    (dur : List Char → Nat → Int) (data : List (String × PosRecord))
    (batch_size : Int) (use_multithreading : Bool)
    (sched : Nat → List (List Char × Nat) → List (List Char × Nat)) :
    List (List Char × Nat × Nat) × Except (List Char) (List (List Char × WriteStat)) :=
  if batch_size == 0 then ([], .error zeroDivMsg)
  else optimizedGo flushOk dur use_multithreading sched
    (pyBatches data batch_size).enum [] []

/-- One output row of `compare_results`:
`[collection, orig_ops, orig_time, opt_ops, opt_time]` (src/demo.py lines
207-213). -/
structure CompareRow where
  collection : List Char
  orig_ops : Nat
  orig_time : Int
  opt_ops : Nat
  opt_time : Int
deriving DecidableEq

/-- `compare_results` (src/demo.py lines 196-215), the stats aggregator:
`collections = set(list(original_stats.keys()) + list(optimized_stats.keys()))`
and one row per element, with the original side read by exact key lookup
(`.get(collection, {}).get(..., 0)`) and the optimized side summed over all
keys `k` with `k.startswith(collection)`.  Python set iteration order is
unspecified; it is modelled as first-occurrence order (`dedup`), and no
claim depends on row order. -/
def compare_results (original_stats optimized_stats : List (List Char × WriteStat)) :
    List CompareRow :=
  ((original_stats.map Prod.fst ++ optimized_stats.map Prod.fst).dedup).map
    (fun c =>
      { collection := c
        orig_ops := ((original_stats.lookup c).map WriteStat.num_operations).getD 0
        orig_time := ((original_stats.lookup c).map WriteStat.duration).getD 0
        opt_ops :=
          ((optimized_stats.filter (fun e => c.isPrefixOf e.1)).map
            (fun e => e.2.num_operations)).sum
        opt_time :=
          ((optimized_stats.filter (fun e => c.isPrefixOf e.1)).map
            (fun e => e.2.duration)).sum })

/-- Reference chunking: successive `take C` pieces.  Used only as a proof
device; `pyBatches_eq_chunksOf` shows the writer's index arithmetic
produces exactly these chunks. -/
def chunksOf {α : Type} (l : List α) (C : Nat) : List (List α) :=
  match l, C with
  | _, 0 => []
  | [], _ + 1 => []
  | a :: l', C' + 1 =>
    (a :: l').take (C' + 1) :: chunksOf ((a :: l').drop (C' + 1)) (C' + 1)
termination_by l.length
decreasing_by
  simp only [List.length_drop, List.length_cons]
  omega

/-! ### Characterizations of the partition loops -/

/-- The discriminator test `report["posmsgtype"] == "position"` as a
predicate on record items. -/
def isPositionItem (x : String × PosRecord) : Bool :=
  x.2.posmsgtype == some "position"

theorem naiveOperations_eq (data : List (String × PosRecord))
    (h : ∀ x ∈ data, (x.2.posmsgtype).isSome) :
    naiveOperations data = .ok
      (data.map (fun x => WriteOp.updateOne x.1 x.2),
       (data.filter isPositionItem).map (fun x => WriteOp.insertOne x.2),
       (data.filter (fun x => !isPositionItem x)).map (fun x => WriteOp.insertOne x.2)) := by
  induction data with
  | nil => rfl
  | cons hd tl ih =>
    obtain ⟨t, ht⟩ := Option.isSome_iff_exists.mp (h hd (List.mem_cons_self hd tl))
    have ih' := ih (fun x hx => h x (List.mem_cons_of_mem hd hx))
    obtain ⟨row, writedata⟩ := hd
    simp only at ht
    by_cases hpos : t = "position"
    · subst hpos
      simp [naiveOperations, ht, ih', isPositionItem, List.filter_cons]
    · have hbeq : (t == "position") = false := beq_eq_false_iff_ne.mpr hpos
      have hbeq' : isPositionItem (row, writedata) = false := by
        simp [isPositionItem, ht, hbeq]
      simp [naiveOperations, ht, ih', hbeq, hbeq', List.filter_cons]

theorem chunkBuckets_eq (chunk : List (String × PosRecord))
    (h : ∀ x ∈ chunk, (x.2.posmsgtype).isSome) :
    chunkBuckets chunk = .ok
      (chunk.map (fun x => WriteOp.updateOne x.1 x.2),
       (chunk.filter isPositionItem).map Prod.snd,
       (chunk.filter (fun x => !isPositionItem x)).map Prod.snd) := by
  induction chunk with
  | nil => rfl
  | cons hd tl ih =>
    obtain ⟨t, ht⟩ := Option.isSome_iff_exists.mp (h hd (List.mem_cons_self hd tl))
    have ih' := ih (fun x hx => h x (List.mem_cons_of_mem hd hx))
    obtain ⟨fid, report⟩ := hd
    simp only at ht
    by_cases hpos : t = "position"
    · subst hpos
      simp [chunkBuckets, ht, ih', isPositionItem, List.filter_cons]
    · have hbeq : (t == "position") = false := beq_eq_false_iff_ne.mpr hpos
      have hbeq' : isPositionItem (fid, report) = false := by
        simp [isPositionItem, ht, hbeq]
      simp [chunkBuckets, ht, ih', hbeq, hbeq', List.filter_cons]

theorem length_filter_add_length_filter_not {α : Type} (p : α → Bool) (l : List α) :
    (l.filter p).length + (l.filter (fun x => !p x)).length = l.length := by
  induction l with
  | nil => rfl
  | cons a l ih =>
    by_cases hpa : p a
    · simp [List.filter_cons, hpa, Nat.succ_add, ih]
    · simp only [Bool.not_eq_true] at hpa
      simp [List.filter_cons, hpa, ← Nat.add_assoc, Nat.add_comm, ih]
      omega

/-! ### The naive flush loop -/

theorem flushLoop_all_ok (flushOk : List Char → Bool) (dur : List Char → Int)
    (l : List (List Char × List WriteOp)) (h : ∀ x ∈ l, flushOk x.1 = true) :
    flushLoop flushOk dur l =
      ((l.filter (fun x => !x.2.isEmpty)).map (fun x => (x.1, x.2.length)),
       Except.ok ((l.filter (fun x => !x.2.isEmpty)).map
         (fun x => (x.1, WriteStat.mk x.2.length (dur x.1))))) := by
  induction l with
  | nil => rfl
  | cons hd tl ih =>
    have htl := ih (fun x hx => h x (List.mem_cons_of_mem hd hx))
    obtain ⟨name, ops⟩ := hd
    by_cases hops : ops.isEmpty
    · simp [flushLoop, hops, htl, List.filter_cons]
    · have hok := h (name, ops) (List.mem_cons_self _ tl)
      simp only at hok
      simp [flushLoop, hops, hok, htl, List.filter_cons, Except.map]

theorem flushLoop_first_fail (flushOk : List Char → Bool) (dur : List Char → Int)
    (l : List (List Char × List WriteOp)) (hne : ∀ x ∈ l, x.2 ≠ [])
    (j : Nat) (hj : j < l.length)
    (hpre : ∀ i, (hi : i < l.length) → i < j → flushOk (l.get ⟨i, hi⟩).1 = true)
    (hfail : flushOk (l.get ⟨j, hj⟩).1 = false) :
    flushLoop flushOk dur l =
      ((l.take (j + 1)).map (fun x => (x.1, x.2.length)),
       Except.error (bulkWriteErrMsg (l.get ⟨j, hj⟩).1)) := by
  induction l generalizing j with
  | nil => exact absurd hj (Nat.not_lt_zero j)
  | cons hd tl ih =>
    obtain ⟨name, ops⟩ := hd
    have hops : ops.isEmpty = false := by
      have := hne (name, ops) (List.mem_cons_self _ tl)
      simpa [List.isEmpty_iff] using this
    cases j with
    | zero =>
      simp only [List.get] at hfail
      simp [flushLoop, hops, hfail]
    | succ j' =>
      have hok : flushOk name = true := by
        have := hpre 0 (Nat.succ_le_of_lt (Nat.succ_pos _)) (Nat.succ_pos j')
        simpa using this
      have hj' : j' < tl.length := Nat.lt_of_succ_lt_succ hj
      have htl := ih (fun x hx => hne x (List.mem_cons_of_mem _ hx)) j' hj'
        (fun i hi hlt => hpre (i + 1) (Nat.succ_lt_succ hi) (Nat.succ_lt_succ hlt))
        hfail
      simp [flushLoop, hops, hok, htl, Except.map]

/-! ### Python dict round trip -/

theorem pyDict_foldl_of_nodup (l : List (String × PosRecord)) :
    ∀ acc : List (String × PosRecord),
      (acc.map Prod.fst ++ l.map Prod.fst).Nodup →
      l.foldl pyDictInsert acc = acc ++ l := by
  induction l with
  | nil => intro acc _; simp
  | cons kv tl ih =>
    intro acc hnd
    have hnotin : ∀ p ∈ acc, (p.1 == kv.1) = false := by
      intro p hp
      have h1 : p.1 ∈ acc.map Prod.fst := List.mem_map_of_mem Prod.fst hp
      have h2 : kv.1 ∈ kv.1 :: tl.map Prod.fst := List.mem_cons_self _ _
      have hd := List.disjoint_of_nodup_append hnd
      have : p.1 ≠ kv.1 := by
        intro he
        exact hd h1 (by rw [List.map_cons, he]; exact h2)
      simpa using this
    have hstep : pyDictInsert acc kv = acc ++ [kv] := by
      have hany : acc.any (fun p => p.1 == kv.1) = false := by
        simp only [List.any_eq_false]
        intro p hp
        simp [hnotin p hp]
      simp [pyDictInsert, hany]
    have hnd' : ((acc ++ [kv]).map Prod.fst ++ tl.map Prod.fst).Nodup := by
      simpa [List.map_append, List.append_assoc] using hnd
    calc (kv :: tl).foldl pyDictInsert acc
        = tl.foldl pyDictInsert (acc ++ [kv]) := by simp [hstep]
      _ = (acc ++ [kv]) ++ tl := ih (acc ++ [kv]) hnd'
      _ = acc ++ kv :: tl := by simp

theorem pyDict_eq_self (l : List (String × PosRecord))
    (h : (l.map Prod.fst).Nodup) : pyDict l = l := by
  have := pyDict_foldl_of_nodup l [] (by simpa using h)
  simpa [pyDict] using this

/-! ### Shared concrete inputs for witnesses and counterexamples -/

/-- A record with discriminator "position". -/
def recPos : PosRecord := { posmsgtype := some "position", payload := 0 }

/-- A record with discriminator "surface". -/
def recSur : PosRecord := { posmsgtype := some "surface", payload := 1 }

/-- A record with an unrecognized discriminator value. -/
def recOdd : PosRecord := { posmsgtype := some "weird", payload := 2 }

/-- A record whose posmsgtype field is missing. -/
def recNone : PosRecord := { posmsgtype := none, payload := 3 }

/-- All-success flush oracle for the naive writer. -/
def okFlushN : List Char → Bool := fun _ => true

/-- Zero-duration oracle for the naive writer. -/
def zeroDurN : List Char → Int := fun _ => 0

/-- All-success flush oracle for the batched writer. -/
def okFlushO : List Char → Nat → Bool := fun _ _ => true

/-- Zero-duration oracle for the batched writer. -/
def zeroDurO : List Char → Nat → Int := fun _ _ => 0

/-- Identity schedule: threads of a chunk complete in start order. -/
def idSched : Nat → List (List Char × Nat) → List (List Char × Nat) := fun _ ts => ts

/-- C4: for every record set (with the discriminator present on every
record, as the generator guarantees), the naive writer's single scan puts
exactly one upsert per record, keyed by that record's identity, into the
flight bucket; routes every record to exactly one of the two append-only
buckets according to its discriminator; keeps those two buckets disjoint;
and their cardinalities sum to N, so the records covered by the append pair
are exactly the N records (and the flight bucket also has cardinality N). -/
theorem claim_C4 (data : List (String × PosRecord))
    (h : ∀ x ∈ data, (x.2.posmsgtype).isSome) :
    ∃ fl pos sur, naiveOperations data = .ok (fl, pos, sur) ∧
      fl = data.map (fun x => WriteOp.updateOne x.1 x.2) ∧
      fl.length = data.length ∧
      pos.length + sur.length = data.length ∧
      (∀ op ∈ pos, op ∉ sur) ∧
      (∀ x ∈ data,
        (isPositionItem x = true → WriteOp.insertOne x.2 ∈ pos) ∧
        (isPositionItem x = false → WriteOp.insertOne x.2 ∈ sur)) := by
  refine ⟨_, _, _, naiveOperations_eq data h, rfl, by simp, ?_, ?_, ?_⟩
  · simp only [List.length_map]
    exact length_filter_add_length_filter_not isPositionItem data
  · intro op hop hop'
    obtain ⟨x, hx, hxop⟩ := List.mem_map.mp hop
    obtain ⟨y, hy, hyop⟩ := List.mem_map.mp hop'
    have hx' := (List.mem_filter.mp hx).2
    have hy' := (List.mem_filter.mp hy).2
    have hxy : x.2 = y.2 := by
      have := hxop.trans hyop.symm
      exact WriteOp.insertOne.inj this
    have : isPositionItem y = true := by
      simp only [isPositionItem] at hx' ⊢
      rw [← hxy]
      exact hx'
    simp [this] at hy'
  · intro x hx
    constructor
    · intro hpos
      exact List.mem_map_of_mem _ (List.mem_filter.mpr ⟨hx, hpos⟩)
    · intro hneg
      exact List.mem_map_of_mem _ (List.mem_filter.mpr ⟨hx, by simp [hneg]⟩)

/-- Witness for C4 at a concrete two-record input. -/
theorem claim_C4_witness :
    ∃ fl pos sur,
      naiveOperations [("A", recPos), ("B", recSur)] = .ok (fl, pos, sur) ∧
      fl = [("A", recPos), ("B", recSur)].map (fun x => WriteOp.updateOne x.1 x.2) ∧
      fl.length = 2 ∧ pos.length + sur.length = 2 ∧
      (∀ op ∈ pos, op ∉ sur) ∧
      (∀ x ∈ [("A", recPos), ("B", recSur)],
        (isPositionItem x = true → WriteOp.insertOne x.2 ∈ pos) ∧
        (isPositionItem x = false → WriteOp.insertOne x.2 ∈ sur)) :=
  claim_C4 [("A", recPos), ("B", recSur)] (by decide)

/-- C5 counterexample: a record whose `posmsgtype` field is MISSING is not
"routed into the surface collection": both writers raise an uncaught
`KeyError` and abort, performing no bulk call at all.  This refutes the
claim's "missing ... discriminator ... is not rejected" half. -/
theorem claim_C5_counterexample :
    original_write_position_mongo_database okFlushN zeroDurN [("A", recNone)] =
      ([], .error keyErrorMsg) ∧
    optimized_write_position_mongo_database okFlushO zeroDurO [("A", recNone)]
      1 false idSched = ([], .error keyErrorMsg) := by
  constructor <;> rfl

/-- C5 (amended): a record whose `posmsgtype` field is PRESENT but holds an
unrecognized value (anything other than "position") is not rejected: both
the naive partition and the batched writer's per-chunk partition route it
into the surface-collection bucket and not into the position-collection
bucket.  A record with the field missing instead raises an uncaught
`KeyError` that aborts either writer (see the counterexample). -/
theorem claim_C5 (data : List (String × PosRecord)) (idr : String × PosRecord)
    (v : String) (hall : ∀ x ∈ data, (x.2.posmsgtype).isSome)
    (hmem : idr ∈ data) (hv : idr.2.posmsgtype = some v) (hne : v ≠ "position") :
    (∃ fl pos sur, naiveOperations data = .ok (fl, pos, sur) ∧
      WriteOp.insertOne idr.2 ∈ sur ∧ WriteOp.insertOne idr.2 ∉ pos) ∧
    (∃ ups poss surs, chunkBuckets data = .ok (ups, poss, surs) ∧
      idr.2 ∈ surs ∧ idr.2 ∉ poss) := by
  have hitem : isPositionItem idr = false := by
    simp [isPositionItem, hv, hne]
  constructor
  · refine ⟨_, _, _, naiveOperations_eq data hall, ?_, ?_⟩
    · exact List.mem_map_of_mem _ (List.mem_filter.mpr ⟨hmem, by simp [hitem]⟩)
    · intro hcon
      obtain ⟨y, hy, hyop⟩ := List.mem_map.mp hcon
      have hy2 : y.2 = idr.2 := WriteOp.insertOne.inj hyop
      have := (List.mem_filter.mp hy).2
      simp only [isPositionItem, hy2] at this
      simp [isPositionItem, hv, hne] at this
  · refine ⟨_, _, _, chunkBuckets_eq data hall, ?_, ?_⟩
    · exact List.mem_map_of_mem _ (List.mem_filter.mpr ⟨hmem, by simp [hitem]⟩)
    · intro hcon
      obtain ⟨y, hy, hyop⟩ := List.mem_map.mp hcon
      have := (List.mem_filter.mp hy).2
      simp only [isPositionItem, hyop, hv] at this
      simp [hne] at this

/-- Witness for the amended C5 at a concrete input holding a record with
the unrecognized discriminator value "weird". -/
theorem claim_C5_witness :
    (∃ fl pos sur,
      naiveOperations [("A", recPos), ("B", recOdd)] = .ok (fl, pos, sur) ∧
      WriteOp.insertOne recOdd ∈ sur ∧ WriteOp.insertOne recOdd ∉ pos) ∧
    (∃ ups poss surs,
      chunkBuckets [("A", recPos), ("B", recOdd)] = .ok (ups, poss, surs) ∧
      recOdd ∈ surs ∧ recOdd ∉ poss) :=
  claim_C5 [("A", recPos), ("B", recOdd)] ("B", recOdd) "weird"
    (by decide) (by decide) (by decide) (by decide)

theorem flushLoop_filter (flushOk : List Char → Bool) (dur : List Char → Int)
    (l : List (List Char × List WriteOp)) :
    flushLoop flushOk dur l = flushLoop flushOk dur (l.filter (fun x => !x.2.isEmpty)) := by
  induction l with
  | nil => rfl
  | cons hd tl ih =>
    obtain ⟨name, ops⟩ := hd
    by_cases hops : ops.isEmpty
    · simp only [flushLoop, hops, if_pos rfl, List.filter_cons]
      simpa [hops] using ih
    · have hops' : ops.isEmpty = false := by simpa using hops
      simp only [List.filter_cons, hops', Bool.not_false, if_pos rfl]
      simp only [flushLoop, hops', Bool.false_eq_true, if_false, ih]

/-- The list of non-empty naive buckets, in flush order. -/
def naiveNonEmpty (fl pos sur : List WriteOp) : List (List Char × List WriteOp) :=
  [(FLIGHT_COLLECTION, fl), (POSITION_COLLECTION, pos),
   (SURFACE_COLLECTION, sur)].filter (fun x => !x.2.isEmpty)

/-- C8: if the flush call of some non-empty naive bucket fails (the first
failing one being at position j of the non-empty bucket list), the naive
writer surfaces the error immediately: no WriteStat mapping is returned
(the result is the error), the buckets before j were already flushed and
are not rolled back (the trace keeps their bulk calls), and the buckets
after j are never flushed (the trace stops at j). -/
theorem claim_C8 (flushOk : List Char → Bool) (dur : List Char → Int)
    (data : List (String × PosRecord)) (fl pos sur : List WriteOp)
    (hops : naiveOperations data = .ok (fl, pos, sur))
    (j : Nat) (hj : j < (naiveNonEmpty fl pos sur).length)
    (hpre : ∀ i, (hi : i < (naiveNonEmpty fl pos sur).length) → i < j →
      flushOk ((naiveNonEmpty fl pos sur).get ⟨i, hi⟩).1 = true)
    (hfail : flushOk ((naiveNonEmpty fl pos sur).get ⟨j, hj⟩).1 = false) :
    original_write_position_mongo_database flushOk dur data =
      (((naiveNonEmpty fl pos sur).take (j + 1)).map (fun x => (x.1, x.2.length)),
       Except.error (bulkWriteErrMsg ((naiveNonEmpty fl pos sur).get ⟨j, hj⟩).1)) := by
  have hmem : ∀ x ∈ naiveNonEmpty fl pos sur, x.2 ≠ [] := by
    intro x hx
    have := (List.mem_filter.mp hx).2
    simpa [List.isEmpty_iff] using this
  have hloop := flushLoop_first_fail flushOk dur (naiveNonEmpty fl pos sur)
    hmem j hj hpre hfail
  simp only [original_write_position_mongo_database, hops]
  rw [flushLoop_filter]
  exact hloop

/-- Witness for C8: with both discriminator categories present and the
position-collection flush forced to fail, the naive writer aborts after
flushing flight and attempting position, never touching surface. -/
theorem claim_C8_witness :
    original_write_position_mongo_database
      (fun c => !(c == POSITION_COLLECTION)) zeroDurN
      [("A", recPos), ("B", recSur)] =
      ([(FLIGHT_COLLECTION, 2), (POSITION_COLLECTION, 1)],
       Except.error (bulkWriteErrMsg POSITION_COLLECTION)) := by
  have h := claim_C8 (fun c => !(c == POSITION_COLLECTION)) zeroDurN
    [("A", recPos), ("B", recSur)]
    [WriteOp.updateOne "A" recPos, WriteOp.updateOne "B" recSur]
    [WriteOp.insertOne recPos] [WriteOp.insertOne recSur]
    (by rfl) 1 (by decide)
    (by intro i hi hlt
        have : i = 0 := by omega
        subst this
        rfl)
    (by rfl)
  exact h.trans (by rfl)

/-- C6 counterexample: a non-empty record set whose records are all in the
"position" category: the naive writer issues only 2 flush calls and returns
a WriteStat mapping with 2 keys, not 3 — refuting "exactly 3 ... regardless
of how the records' discriminator values are distributed". -/
theorem claim_C6_counterexample :
    (original_write_position_mongo_database okFlushN zeroDurN
      [("A", recPos)]).1.length = 2 ∧
    (original_write_position_mongo_database okFlushN zeroDurN
      [("A", recPos)]).2 =
      Except.ok [(FLIGHT_COLLECTION, WriteStat.mk 1 0),
                 (POSITION_COLLECTION, WriteStat.mk 1 0)] := by
  constructor <;> rfl

/-- C6 (amended): for every non-empty record set (discriminator present
everywhere) with all flushes succeeding, the naive writer issues exactly
one bulk call per non-empty bucket: the flight collection is always
flushed, the position (resp. surface) collection is flushed iff some record
has (resp. lacks) the "position" discriminator.  Hence the flush-call count
and the WriteStat key count coincide, are exactly 3 iff both discriminator
categories occur, and are 2 otherwise — never more than 3. -/
theorem claim_C6 (flushOk : List Char → Bool) (dur : List Char → Int)
    (data : List (String × PosRecord)) (hne : data ≠ [])
    (h : ∀ x ∈ data, (x.2.posmsgtype).isSome) (hOk : ∀ c, flushOk c = true) :
    ∃ trace stats,
      original_write_position_mongo_database flushOk dur data = (trace, .ok stats) ∧
      stats.map Prod.fst =
        FLIGHT_COLLECTION ::
          ((if data.any isPositionItem then [POSITION_COLLECTION] else []) ++
            (if data.any (fun x => !isPositionItem x) then [SURFACE_COLLECTION] else [])) ∧
      trace.map Prod.fst = stats.map Prod.fst ∧
      (stats.length = 3 ↔
        (data.any isPositionItem = true ∧ data.any (fun x => !isPositionItem x) = true)) ∧
      2 ≤ stats.length ∧ stats.length ≤ 3 := by
  have hchar := naiveOperations_eq data h
  have hloop := flushLoop_all_ok flushOk dur
    [(FLIGHT_COLLECTION, data.map (fun x => WriteOp.updateOne x.1 x.2)),
     (POSITION_COLLECTION, (data.filter isPositionItem).map (fun x => WriteOp.insertOne x.2)),
     (SURFACE_COLLECTION, (data.filter (fun x => !isPositionItem x)).map
       (fun x => WriteOp.insertOne x.2))]
    (by intro x _; exact hOk x.1)
  have hfl : (data.map (fun x => WriteOp.updateOne x.1 x.2)).isEmpty = false := by
    simp [List.isEmpty_iff, hne]
  by_cases hP : data.any isPositionItem
  · have hposne : (data.filter isPositionItem) ≠ [] := by
      simp only [ne_eq, List.filter_eq_nil_iff]
      intro hall
      rw [List.any_eq_true] at hP
      obtain ⟨x, hx, hpx⟩ := hP
      exact hall x hx hpx
    have hpos : ((data.filter isPositionItem).map
        (fun x => WriteOp.insertOne x.2)).isEmpty = false := by
      simp [List.isEmpty_iff, hposne]
    by_cases hS : data.any (fun x => !isPositionItem x)
    · have hsurne : (data.filter (fun x => !isPositionItem x)) ≠ [] := by
        simp only [ne_eq, List.filter_eq_nil_iff]
        intro hall
        rw [List.any_eq_true] at hS
        obtain ⟨x, hx, hpx⟩ := hS
        exact hall x hx hpx
      have hsur : ((data.filter (fun x => !isPositionItem x)).map
          (fun x => WriteOp.insertOne x.2)).isEmpty = false := by
        simp [List.isEmpty_iff, hsurne]
      have hres : original_write_position_mongo_database flushOk dur data =
          flushLoop flushOk dur
            [(FLIGHT_COLLECTION, data.map (fun x => WriteOp.updateOne x.1 x.2)),
             (POSITION_COLLECTION,
               (data.filter isPositionItem).map (fun x => WriteOp.insertOne x.2)),
             (SURFACE_COLLECTION,
               (data.filter (fun x => !isPositionItem x)).map
                 (fun x => WriteOp.insertOne x.2))] := by
        simp only [original_write_position_mongo_database, hchar]
      rw [hloop] at hres
      refine ⟨_, _, hres, ?_, ?_, ?_, ?_, ?_⟩ <;>
        simp [List.filter_cons, hfl, hpos, hsur, hP, hS]
    · have hsurnil : (data.filter (fun x => !isPositionItem x)) = [] := by
        simp only [List.filter_eq_nil_iff]
        intro x hx
        rw [Bool.not_eq_true, List.any_eq_false] at hS
        simpa using hS x hx
      have hsur : ((data.filter (fun x => !isPositionItem x)).map
          (fun x => WriteOp.insertOne x.2)).isEmpty = true := by
        simp [hsurnil]
      have hres : original_write_position_mongo_database flushOk dur data =
          flushLoop flushOk dur
            [(FLIGHT_COLLECTION, data.map (fun x => WriteOp.updateOne x.1 x.2)),
             (POSITION_COLLECTION,
               (data.filter isPositionItem).map (fun x => WriteOp.insertOne x.2)),
             (SURFACE_COLLECTION,
               (data.filter (fun x => !isPositionItem x)).map
                 (fun x => WriteOp.insertOne x.2))] := by
        simp only [original_write_position_mongo_database, hchar]
      rw [hloop] at hres
      refine ⟨_, _, hres, ?_, ?_, ?_, ?_, ?_⟩ <;>
        simp [List.filter_cons, hfl, hpos, hsur, hP, hS]
  · have hposnil : (data.filter isPositionItem) = [] := by
      simp only [List.filter_eq_nil_iff]
      intro x hx
      rw [Bool.not_eq_true, List.any_eq_false] at hP
      exact fun hc => (by simpa [hc] using hP x hx)
    have hpos : ((data.filter isPositionItem).map
        (fun x => WriteOp.insertOne x.2)).isEmpty = true := by
      simp [hposnil]
    have hS : data.any (fun x => !isPositionItem x) = true := by
      obtain ⟨x, hx⟩ := List.exists_mem_of_ne_nil data hne
      rw [List.any_eq_true]
      refine ⟨x, hx, ?_⟩
      rw [Bool.not_eq_true, List.any_eq_false] at hP
      simpa using hP x hx
    have hsurne : (data.filter (fun x => !isPositionItem x)) ≠ [] := by
      simp only [ne_eq, List.filter_eq_nil_iff]
      intro hall
      rw [List.any_eq_true] at hS
      obtain ⟨x, hx, hpx⟩ := hS
      exact hall x hx hpx
    have hsur : ((data.filter (fun x => !isPositionItem x)).map
        (fun x => WriteOp.insertOne x.2)).isEmpty = false := by
      simp [List.isEmpty_iff, hsurne]
    have hres : original_write_position_mongo_database flushOk dur data =
        flushLoop flushOk dur
          [(FLIGHT_COLLECTION, data.map (fun x => WriteOp.updateOne x.1 x.2)),
           (POSITION_COLLECTION,
             (data.filter isPositionItem).map (fun x => WriteOp.insertOne x.2)),
           (SURFACE_COLLECTION,
             (data.filter (fun x => !isPositionItem x)).map
               (fun x => WriteOp.insertOne x.2))] := by
      simp only [original_write_position_mongo_database, hchar]
    rw [hloop] at hres
    refine ⟨_, _, hres, ?_, ?_, ?_, ?_, ?_⟩ <;>
      simp [List.filter_cons, hfl, hpos, hsur, hP, hS]

/-- Witness for the amended C6 at a concrete input with only "position"
records (2 flush calls, 2 stats keys). -/
theorem claim_C6_witness :
    ∃ trace stats,
      original_write_position_mongo_database okFlushN zeroDurN
        [("A", recPos), ("B", recPos)] = (trace, .ok stats) ∧
      stats.map Prod.fst =
        FLIGHT_COLLECTION ::
          ((if [("A", recPos), ("B", recPos)].any isPositionItem
              then [POSITION_COLLECTION] else []) ++
            (if [("A", recPos), ("B", recPos)].any (fun x => !isPositionItem x)
              then [SURFACE_COLLECTION] else [])) ∧
      trace.map Prod.fst = stats.map Prod.fst ∧
      (stats.length = 3 ↔
        ([("A", recPos), ("B", recPos)].any isPositionItem = true ∧
          [("A", recPos), ("B", recPos)].any (fun x => !isPositionItem x) = true)) ∧
      2 ≤ stats.length ∧ stats.length ≤ 3 :=
  claim_C6 okFlushN zeroDurN [("A", recPos), ("B", recPos)]
    (by decide) (by decide) (fun _ => rfl)

/-! ### Chunk arithmetic of the batched writer -/

theorem totalBatches_toNat (n C : Nat) (hC : 0 < C) :
    (totalBatches n (C : Int)).toNat = (n + C - 1) / C := by
  unfold totalBatches
  have hcast : (n : Int) + (C : Int) - 1 = ((n + C - 1 : Nat) : Int) := by
    have : 1 ≤ n + C := by omega
    push_cast [this]
    ring
  rw [hcast, ← Int.ofNat_fdiv]
  exact Int.toNat_natCast _

theorem pyIndexClamp_natCast (n a : Nat) : pyIndexClamp n ((a : Nat) : Int) = min a n := by
  unfold pyIndexClamp
  rw [if_neg (by exact Int.not_lt.mpr (Int.natCast_nonneg a))]
  simp

theorem pyBatches_coe {α : Type} (l : List α) (C : Nat) (hC : 0 < C) :
    pyBatches l (C : Int) =
      (List.range ((l.length + C - 1) / C)).map
        (fun k => (l.take (min (k * C + C) l.length)).drop (min (k * C) l.length)) := by
  unfold pyBatches
  rw [totalBatches_toNat l.length C hC]
  apply List.map_congr_left
  intro k _
  have h2 : ((k : Nat) : Int) * (C : Int) + (C : Int) = ((k * C + C : Nat) : Int) := by
    push_cast
    ring
  have h1 : ((k : Nat) : Int) * (C : Int) = ((k * C : Nat) : Int) := by
    push_cast
    ring
  rw [h2, h1, ← Nat.cast_min]
  unfold pySlice
  rw [pyIndexClamp_natCast, pyIndexClamp_natCast]
  have hmin : min (min (k * C + C) l.length) l.length = min (k * C + C) l.length := by
    omega
  rw [hmin]

theorem chunksOf_cons_eq {α : Type} (a : α) (l : List α) (C : Nat) (hC : 0 < C) :
    chunksOf (a :: l) C = (a :: l).take C :: chunksOf ((a :: l).drop C) C := by
  obtain ⟨C', rfl⟩ : ∃ C', C = C' + 1 := ⟨C - 1, by omega⟩
  rw [chunksOf.eq_def]

theorem chunksOf_nil {α : Type} (C : Nat) : chunksOf ([] : List α) C = [] := by
  rw [chunksOf.eq_def]
  cases C <;> rfl

theorem rangeChunks_eq_chunksOf {α : Type} (C : Nat) (hC : 0 < C) :
    ∀ (n : Nat) (l : List α), l.length = n →
      (List.range ((n + C - 1) / C)).map
        (fun k => (l.take (min (k * C + C) n)).drop (min (k * C) n)) = chunksOf l C := by
  intro n
  induction n using Nat.strong_induction_on with
  | _ n ih =>
    intro l hlen
    match l with
    | [] =>
      have hn : n = 0 := by simpa using hlen.symm
      subst hn
      rw [chunksOf_nil]
      have h0 : (C - 1) / C = 0 := Nat.div_eq_of_lt (by omega)
      simp [h0]
    | a :: l' =>
      have hn1 : 1 ≤ n := by
        rw [← hlen]
        simp
      have hT : (n + C - 1) / C = (n - 1) / C + 1 := by
        have he : n + C - 1 = (n - 1) + C := by omega
        rw [he, Nat.add_div_right _ hC]
      rw [hT, List.range_succ_eq_map, List.map_cons, List.map_map]
      have hhead : ((a :: l').take (min (0 * C + C) n)).drop (min (0 * C) n) =
          (a :: l').take C := by
        have h0 : min (0 * C) n = 0 := by omega
        rw [h0, List.drop_zero]
        rcases Nat.le_total C n with hcn | hcn
        · have : min (0 * C + C) n = C := by omega
          rw [this]
        · have hm : min (0 * C + C) n = n := by omega
          rw [hm, ← hlen, List.take_length, List.take_of_length_le (by omega)]
      rw [chunksOf_cons_eq a l' C hC, ← hhead]
      congr 1
      have hlen' : ((a :: l').drop C).length = n - C := by
        simp [hlen]
      have ihd := ih (n - C) (by omega) ((a :: l').drop C) hlen'
      rw [← ihd]
      have hT' : (n - C + C - 1) / C = (n - 1) / C := by
        rcases Nat.lt_or_ge C n with hcn | hcn
        · have he : n - C + C - 1 = (n - C - 1) + C := by omega
          have he2 : n - 1 = (n - C - 1) + C := by omega
          rw [he, he2, Nat.add_div_right _ hC]
        · have h1 : n - C + C - 1 = C - 1 := by omega
          have h2 : (C - 1) / C = 0 := Nat.div_eq_of_lt (by omega)
          have h3 : (n - 1) / C = 0 := Nat.div_eq_of_lt (by omega)
          rw [h1, h2, h3]
      rw [← hT']
      apply List.map_congr_left
      intro k hk
      rw [List.mem_range] at hk
      have hk' : k + 1 ≤ (n - C + C - 1) / C := hk
      have hkC : (k + 1) * C ≤ n - C + C - 1 := by
        have := (Nat.le_div_iff_mul_le hC).mp hk'
        exact this
      have hkC' : k * C + C ≤ n - 1 := by
        rw [Nat.succ_mul] at hkC
        omega
      have hCn : C ≤ n - 1 := by omega
      simp only [Function.comp]
      have hmul : (k + 1) * C = k * C + C := Nat.succ_mul k C
      rw [hmul]
      rw [List.take_drop, List.drop_drop]
      have e1 : C + min (k * C + C) (n - C) = min (k * C + C + C) n := by omega
      have e2 : C + min (k * C) (n - C) = min (k * C + C) n := by omega
      rw [e1, e2]

theorem pyBatches_eq_chunksOf {α : Type} (l : List α) (C : Nat) (hC : 0 < C) :
    pyBatches l (C : Int) = chunksOf l C := by
  rw [pyBatches_coe l C hC]
  exact rangeChunks_eq_chunksOf C hC l.length l rfl

theorem chunksOf_flatten {α : Type} (C : Nat) (hC : 0 < C) :
    ∀ (n : Nat) (l : List α), l.length = n → (chunksOf l C).flatten = l := by
  intro n
  induction n using Nat.strong_induction_on with
  | _ n ih =>
    intro l hlen
    match l with
    | [] => rw [chunksOf_nil]; rfl
    | a :: l' =>
      rw [chunksOf_cons_eq a l' C hC, List.flatten_cons]
      have hlen' : ((a :: l').drop C).length = n - C := by simp [hlen]
      have hn1 : 1 ≤ n := by rw [← hlen]; simp
      rw [ih (n - C) (by omega) _ hlen']
      exact List.take_append_drop C (a :: l')

theorem pyBatches_flatten {α : Type} (l : List α) (C : Nat) (hC : 0 < C) :
    (pyBatches l (C : Int)).flatten = l := by
  rw [pyBatches_eq_chunksOf l C hC]
  exact chunksOf_flatten C hC l.length l rfl

theorem chunksOf_ne_nil {α : Type} (l : List α) (C : Nat) (hC : 0 < C) (hl : l ≠ []) :
    chunksOf l C ≠ [] := by
  match l with
  | [] => exact absurd rfl hl
  | a :: l' =>
    rw [chunksOf_cons_eq a l' C hC]
    simp

theorem chunksOf_dropLast_length {α : Type} (C : Nat) (hC : 0 < C) :
    ∀ (n : Nat) (l : List α), l.length = n →
      ∀ c ∈ (chunksOf l C).dropLast, c.length = C := by
  intro n
  induction n using Nat.strong_induction_on with
  | _ n ih =>
    intro l hlen c hc
    match l with
    | [] =>
      rw [chunksOf_nil] at hc
      simp at hc
    | a :: l' =>
      rw [chunksOf_cons_eq a l' C hC] at hc
      by_cases hrest : (a :: l').drop C = []
      · rw [hrest, chunksOf_nil] at hc
        simp at hc
      · have hne := chunksOf_ne_nil _ C hC hrest
        obtain ⟨b, t, hbt⟩ := List.exists_cons_of_ne_nil hne
        rw [hbt] at hc
        rw [List.dropLast_cons₂] at hc
        rcases List.mem_cons.mp hc with hc1 | hc2
        · subst hc1
          have hCn : C < (a :: l').length := by
            by_contra hcon
            exact hrest (List.drop_of_length_le (by omega))
          rw [List.length_take]
          omega
        · have hlen' : ((a :: l').drop C).length = n - C := by simp [hlen]
          have hn1 : 1 ≤ n := by rw [← hlen]; simp
          refine ih (n - C) (by omega) _ hlen' c ?_
          rw [hbt]
          exact hc2

theorem chunksOf_getLast_length {α : Type} (C : Nat) (hC : 0 < C) :
    ∀ (n : Nat) (l : List α), l.length = n → l ≠ [] →
      (chunksOf l C).getLast?.map List.length =
        some (if n % C = 0 then C else n % C) := by
  intro n
  induction n using Nat.strong_induction_on with
  | _ n ih =>
    intro l hlen hl
    match l with
    | [] => exact absurd rfl hl
    | a :: l' =>
      rw [chunksOf_cons_eq a l' C hC]
      have hn1 : 1 ≤ n := by rw [← hlen]; simp
      by_cases hrest : (a :: l').drop C = []
      · have hnC : n ≤ C := by
          have hd := List.length_drop C (a :: l')
          rw [hrest, hlen] at hd
          simp only [List.length_nil] at hd
          omega
        rw [hrest, chunksOf_nil]
        have hlt : (List.take C (a :: l')).length = if n % C = 0 then C else n % C := by
          rw [List.length_take, hlen]
          rcases Nat.lt_or_ge n C with hlt | hge
          · rw [Nat.mod_eq_of_lt hlt, if_neg (by omega)]
            omega
          · have hnc : n = C := by omega
            subst hnc
            rw [Nat.mod_self, if_pos rfl]
            omega
        simp [hlt]
      · have hne := chunksOf_ne_nil _ C hC hrest
        obtain ⟨b, t, hbt⟩ := List.exists_cons_of_ne_nil hne
        rw [hbt, List.getLast?_cons_cons, ← hbt]
        have hlen' : ((a :: l').drop C).length = n - C := by simp [hlen]
        have hCn : C < n := by
          by_contra hcon
          apply hrest
          apply List.drop_of_length_le
          rw [hlen]
          omega
        have hmod : (n - C) % C = n % C := by
          have : n - C + C = n := by omega
          calc (n - C) % C = (n - C + C) % C := (Nat.add_mod_right _ _).symm
            _ = n % C := by rw [this]
        rw [ih (n - C) (by omega) _ hlen' hrest, hmod]
/-- C3: for all N ≥ 0 and chunk size C > 0, the batched writer's chunking
produces ceil(N/C) = (N + C - 1) / C chunks which concatenate back to the
record list in index order (so they are ordered, non-overlapping and cover
everything); every chunk except the last has size exactly C, and the last
chunk has size N mod C, or C when N mod C = 0 (given N > 0). -/
theorem claim_C3 (data : List (String × PosRecord)) (C : Nat) (hC : 0 < C) :
    (pyBatches data (C : Int)).length = (data.length + C - 1) / C ∧
    (pyBatches data (C : Int)).flatten = data ∧
    (∀ c ∈ (pyBatches data (C : Int)).dropLast, c.length = C) ∧
    (data ≠ [] →
      (pyBatches data (C : Int)).getLast?.map List.length =
        some (if data.length % C = 0 then C else data.length % C)) := by
  refine ⟨?_, pyBatches_flatten data C hC, ?_, ?_⟩
  · unfold pyBatches
    rw [List.length_map, List.length_range, totalBatches_toNat data.length C hC]
  · rw [pyBatches_eq_chunksOf data C hC]
    exact chunksOf_dropLast_length C hC data.length data rfl
  · intro hne
    rw [pyBatches_eq_chunksOf data C hC]
    exact chunksOf_getLast_length C hC data.length data rfl hne

/-- Witness for C3 at N = 9, C = 4 (scenario A of the spec: chunk sizes
[4, 4, 1]). -/
theorem claim_C3_witness :
    (pyBatches (List.replicate 9 ("A", recPos)) (4 : Int)).length = (9 + 4 - 1) / 4 ∧
    (pyBatches (List.replicate 9 ("A", recPos)) (4 : Int)).flatten =
      List.replicate 9 ("A", recPos) ∧
    (∀ c ∈ (pyBatches (List.replicate 9 ("A", recPos)) (4 : Int)).dropLast,
      c.length = 4) ∧
    (List.replicate 9 ("A", recPos) ≠ [] →
      (pyBatches (List.replicate 9 ("A", recPos)) (4 : Int)).getLast?.map List.length =
        some (if (List.replicate 9 ("A", recPos)).length % 4 = 0 then 4
          else (List.replicate 9 ("A", recPos)).length % 4)) := by
  have h := claim_C3 (List.replicate 9 ("A", recPos)) 4 (by decide)
  simpa using h

/-! ### Negative and zero batch sizes -/

theorem totalBatches_nonpos_of_neg (n : Nat) (bs : Int) (hbs : bs < 0) (hn : 2 ≤ n) :
    totalBatches n bs ≤ 0 := by
  unfold totalBatches
  rcases le_or_lt 0 ((n : Int) + bs - 1) with hx0 | hx0
  · exact Int.fdiv_nonpos hx0 (le_of_lt hbs)
  · obtain ⟨m, hm⟩ := Int.eq_negSucc_of_lt_zero hx0
    obtain ⟨b, hb⟩ := Int.eq_negSucc_of_lt_zero hbs
    rw [hm, hb]
    have hfd : Int.fdiv (Int.negSucc m) (Int.negSucc b) = Int.ofNat ((m + 1) / (b + 1)) := rfl
    rw [hfd]
    have hmb : m < b := by
      rw [Int.negSucc_eq] at hm
      rw [Int.negSucc_eq] at hb
      omega
    rw [Nat.div_eq_of_lt (by omega)]
    exact Int.le_refl 0

theorem pyBatches_neg_all_nil {α : Type} (l : List α) (bs : Int) (hbs : bs < 0) :
    ∀ c ∈ pyBatches l bs, c = [] := by
  intro c hc
  rcases Nat.lt_or_ge l.length 2 with hn | hn
  · unfold pyBatches at hc
    obtain ⟨k, _, hk⟩ := List.mem_map.mp hc
    have hb' : min ((k : Int) * bs + bs) (l.length : Int) < 0 := by
      have hkbs : (k : Int) * bs ≤ 0 :=
        mul_nonpos_iff.mpr (Or.inl ⟨Int.natCast_nonneg k, le_of_lt hbs⟩)
      have : (k : Int) * bs + bs < 0 := by omega
      omega
    have hclamp : pyIndexClamp l.length (min ((k : Int) * bs + bs) (l.length : Int)) = 0 := by
      unfold pyIndexClamp
      rw [if_pos hb']
      apply Int.toNat_of_nonpos
      have hkbs : (k : Int) * bs ≤ 0 :=
        mul_nonpos_iff.mpr (Or.inl ⟨Int.natCast_nonneg k, le_of_lt hbs⟩)
      have hlen : (l.length : Int) ≤ 1 := by
        have : l.length ≤ 1 := by omega
        exact_mod_cast this
      have hmin : min ((k : Int) * bs + bs) (l.length : Int) ≤ (k : Int) * bs + bs :=
        min_le_left _ _
      omega
    rw [← hk]
    unfold pySlice
    rw [hclamp]
    simp
  · have hT : (totalBatches l.length bs).toNat = 0 :=
      Int.toNat_of_nonpos (totalBatches_nonpos_of_neg l.length bs hbs hn)
    unfold pyBatches at hc
    rw [hT] at hc
    simp at hc

theorem snd_mem_of_mem_enum {α : Type} {p : Nat × α} {l : List α}
    (h : p ∈ l.enum) : p.2 ∈ l := by
  rw [List.enum_eq_zip_range] at h
  exact (List.of_mem_zip h).2

theorem optimizedGo_nil_chunks (flushOk : List Char → Nat → Bool)
    (dur : List Char → Nat → Int) (mt : Bool)
    (sched : Nat → List (List Char × Nat) → List (List Char × Nat))
    (hsched : ∀ k ts, List.Perm (sched k ts) ts) :
    ∀ (ks : List (Nat × List (String × PosRecord)))
      (stats : List (List Char × WriteStat)) (trace : List (List Char × Nat × Nat)),
      (∀ p ∈ ks, p.2 = []) →
      optimizedGo flushOk dur mt sched ks stats trace = (trace, .ok stats) := by
  intro ks
  induction ks with
  | nil => intro stats trace _; rfl
  | cons hd tl ih =>
    intro stats trace hnil
    obtain ⟨k, chunk⟩ := hd
    have hchunk : chunk = [] := hnil (k, chunk) (List.mem_cons_self _ _)
    subst hchunk
    have hsched0 : sched k [] = [] := (hsched k []).eq_nil
    cases mt
    · rw [show optimizedGo flushOk dur false sched ((k, []) :: tl) stats trace =
          optimizedGo flushOk dur false sched tl stats trace from rfl]
      exact ih stats trace (fun p hp => hnil p (List.mem_cons_of_mem _ hp))
    · have hstep : optimizedGo flushOk dur true sched ((k, []) :: tl) stats trace =
          optimizedGo flushOk dur true sched tl
            ((sched k []).foldl (perform_write flushOk dur k) (stats, trace)).1
            ((sched k []).foldl (perform_write flushOk dur k) (stats, trace)).2 := rfl
      rw [hstep, hsched0]
      simp only [List.foldl_nil]
      exact ih stats trace (fun p hp => hnil p (List.mem_cons_of_mem _ hp))

/-- C7 (amended): the core performs no explicit configuration validation.
A chunk size of 0 does fail before any write attempt, as the incidental
`ZeroDivisionError` of the `total_batches` computation (the trace of
attempted bulk calls is empty).  A NEGATIVE chunk size, however, is not
detected at all: the batched writer performs no write attempt and returns
normally with an empty `write_stats` mapping — it does not fail fast. -/
theorem claim_C7 (flushOk : List Char → Nat → Bool) (dur : List Char → Nat → Int)
    (data : List (String × PosRecord)) (batch_size : Int) (mt : Bool)
    (sched : Nat → List (List Char × Nat) → List (List Char × Nat))
    (hsched : ∀ k ts, List.Perm (sched k ts) ts) :
    (batch_size = 0 →
      optimized_write_position_mongo_database flushOk dur data batch_size mt sched =
        ([], .error zeroDivMsg)) ∧
    (batch_size < 0 →
      optimized_write_position_mongo_database flushOk dur data batch_size mt sched =
        ([], .ok [])) := by
  constructor
  · intro h0
    subst h0
    rfl
  · intro hneg
    have hne : (batch_size == 0) = false := by
      rw [beq_eq_false_iff_ne]
      omega
    unfold optimized_write_position_mongo_database
    rw [hne]
    simp only [Bool.false_eq_true, if_false]
    exact optimizedGo_nil_chunks flushOk dur mt sched hsched _ [] []
      (fun p hp => pyBatches_neg_all_nil data batch_size hneg p.2 (snd_mem_of_mem_enum hp))

/-- Witness for the amended C7: a 1-record set with batch size -2,
multithreading on, and a reversing (hence permuting) schedule. -/
theorem claim_C7_witness :
    (((-2 : Int)) = 0 →
      optimized_write_position_mongo_database okFlushO zeroDurO
        [("A", recPos)] (-2) true (fun _ ts => ts.reverse) = ([], .error zeroDivMsg)) ∧
    (((-2 : Int)) < 0 →
      optimized_write_position_mongo_database okFlushO zeroDurO
        [("A", recPos)] (-2) true (fun _ ts => ts.reverse) = ([], .ok [])) :=
  claim_C7 okFlushO zeroDurO [("A", recPos)] (-2) true
    (fun _ ts => ts.reverse) (fun _ ts => ts.reverse_perm)

/-- C7 counterexample: with a negative chunk size (-1) and a non-empty
record set the batched writer does NOT fail fast (nor fail at all): it
returns normally with an empty mapping, refuting "a chunk size of 0 or
negative is a configuration error that fails fast". -/
theorem claim_C7_counterexample :
    optimized_write_position_mongo_database okFlushO zeroDurO
      [("A", recPos)] (-1) false idSched = ([], .ok []) := by
  rfl

/-! ### A closed form for the batched writer's run -/

/-- The task list actually executed for one chunk (after the optional
thread-schedule reordering); empty when the chunk's partition raises. -/
def chunkTasks (mt : Bool) (sched : Nat → List (List Char × Nat) → List (List Char × Nat))
    (k : Nat) (chunk : List (String × PosRecord)) : List (List Char × Nat) :=
  match chunkBuckets (pyDict chunk) with
  | .error _ => []
  | .ok (ups, poss, surs) =>
    if mt then sched k (chunkTaskList ups poss surs) else chunkTaskList ups poss surs

/-- The full trace of attempted bulk calls of the batched writer, one
`(collection, batch_num, count)` per dispatched task, in execution order.
Note it does not depend on the flush oracle. -/
def goTrace (mt : Bool) (sched : Nat → List (List Char × Nat) → List (List Char × Nat))
    (ks : List (Nat × List (String × PosRecord))) : List (List Char × Nat × Nat) :=
  (ks.map (fun p => (chunkTasks mt sched p.1 p.2).map (fun t => (t.1, p.1, t.2)))).flatten

theorem foldl_perform_write (flushOk : List Char → Nat → Bool)
    (dur : List Char → Nat → Int) (k : Nat) (tasks : List (List Char × Nat)) :
    ∀ (stats : List (List Char × WriteStat)) (trace : List (List Char × Nat × Nat)),
      tasks.foldl (perform_write flushOk dur k) (stats, trace) =
        (stats ++ (tasks.filter (fun t => flushOk t.1 k)).map
          (fun t => (statsKey t.1 k, WriteStat.mk t.2 (dur t.1 k))),
         trace ++ tasks.map (fun t => (t.1, k, t.2))) := by
  induction tasks with
  | nil => intro stats trace; simp
  | cons t ts ih =>
    intro stats trace
    by_cases hok : flushOk t.1 k
    · simp only [List.foldl_cons, perform_write, hok, if_pos rfl]
      rw [ih]
      simp [List.filter_cons, hok]
    · have hok' : flushOk t.1 k = false := by simpa using hok
      simp only [List.foldl_cons, perform_write, hok', Bool.false_eq_true, if_false]
      rw [ih]
      simp [List.filter_cons, hok']

theorem optimizedGo_spec (flushOk : List Char → Nat → Bool)
    (dur : List Char → Nat → Int) (mt : Bool)
    (sched : Nat → List (List Char × Nat) → List (List Char × Nat)) :
    ∀ (ks : List (Nat × List (String × PosRecord))),
      (∀ p ∈ ks, ∀ x ∈ pyDict p.2, (x.2.posmsgtype).isSome) →
      ∀ stats trace,
        optimizedGo flushOk dur mt sched ks stats trace =
          (trace ++ goTrace mt sched ks,
           Except.ok (stats ++ ((goTrace mt sched ks).filter
             (fun t => flushOk t.1 t.2.1)).map
             (fun t => (statsKey t.1 t.2.1, WriteStat.mk t.2.2 (dur t.1 t.2.1))))) := by
  intro ks
  induction ks with
  | nil => intro _ stats trace; simp [optimizedGo, goTrace]
  | cons hd tl ih =>
    intro hok stats trace
    obtain ⟨k, chunk⟩ := hd
    have hfields : ∀ x ∈ pyDict chunk, (x.2.posmsgtype).isSome :=
      hok (k, chunk) (List.mem_cons_self _ _)
    have hbuck := chunkBuckets_eq (pyDict chunk) hfields
    simp only [optimizedGo, hbuck]
    rw [foldl_perform_write]
    rw [ih (fun p hp => hok p (List.mem_cons_of_mem _ hp))]
    have hgt : goTrace mt sched ((k, chunk) :: tl) =
        ((if mt then
            sched k (chunkTaskList ((pyDict chunk).map (fun x => WriteOp.updateOne x.1 x.2))
              (((pyDict chunk).filter isPositionItem).map Prod.snd)
              (((pyDict chunk).filter (fun x => !isPositionItem x)).map Prod.snd))
          else
            chunkTaskList ((pyDict chunk).map (fun x => WriteOp.updateOne x.1 x.2))
              (((pyDict chunk).filter isPositionItem).map Prod.snd)
              (((pyDict chunk).filter (fun x => !isPositionItem x)).map Prod.snd)).map
          (fun t => (t.1, k, t.2))) ++ goTrace mt sched tl := by
      simp only [goTrace, List.map_cons, List.flatten_cons, chunkTasks, hbuck]
    rw [hgt]
    simp only [List.filter_append, List.map_append, List.filter_map, List.map_map,
      List.append_assoc, Prod.mk.injEq, Except.ok.injEq, List.append_cancel_left_eq,
      true_and]
    rfl

theorem chunksOf_sublist {α : Type} (C : Nat) (hC : 0 < C) :
    ∀ (n : Nat) (l : List α), l.length = n → ∀ c ∈ chunksOf l C, c.Sublist l := by
  intro n
  induction n using Nat.strong_induction_on with
  | _ n ih =>
    intro l hlen c hc
    match l with
    | [] =>
      rw [chunksOf_nil] at hc
      simp at hc
    | a :: l' =>
      rw [chunksOf_cons_eq a l' C hC] at hc
      rcases List.mem_cons.mp hc with hc1 | hc2
      · subst hc1
        exact List.take_sublist C (a :: l')
      · have hn1 : 1 ≤ n := by rw [← hlen]; simp
        have hlen' : ((a :: l').drop C).length = n - C := by simp [hlen]
        exact (ih (n - C) (by omega) _ hlen' c hc2).trans
          (List.drop_sublist C (a :: l'))

theorem pyBatches_chunk_ok (data : List (String × PosRecord)) (C : Nat) (hC : 0 < C)
    (hfields : ∀ x ∈ data, (x.2.posmsgtype).isSome)
    (hnodup : (data.map Prod.fst).Nodup) :
    ∀ p ∈ (pyBatches data (C : Int)).enum,
      pyDict p.2 = p.2 ∧ ∀ x ∈ p.2, (x.2.posmsgtype).isSome := by
  intro p hp
  have hmem : p.2 ∈ pyBatches data (C : Int) := snd_mem_of_mem_enum hp
  rw [pyBatches_eq_chunksOf data C hC] at hmem
  have hsub : p.2.Sublist data := chunksOf_sublist C hC data.length data rfl p.2 hmem
  refine ⟨pyDict_eq_self p.2 ((hsub.map Prod.fst).nodup hnodup), ?_⟩
  intro x hx
  exact hfields x (hsub.mem hx)

theorem optimized_run_eq (flushOk : List Char → Nat → Bool)
    (dur : List Char → Nat → Int) (data : List (String × PosRecord)) (C : Nat)
    (mt : Bool) (sched : Nat → List (List Char × Nat) → List (List Char × Nat))
    (hC : 0 < C) (hfields : ∀ x ∈ data, (x.2.posmsgtype).isSome)
    (hnodup : (data.map Prod.fst).Nodup) :
    optimized_write_position_mongo_database flushOk dur data (C : Int) mt sched =
      (goTrace mt sched (pyBatches data (C : Int)).enum,
       Except.ok (((goTrace mt sched (pyBatches data (C : Int)).enum).filter
         (fun t => flushOk t.1 t.2.1)).map
         (fun t => (statsKey t.1 t.2.1, WriteStat.mk t.2.2 (dur t.1 t.2.1))))) := by
  have hCne : ((C : Int) == 0) = false := by
    rw [beq_eq_false_iff_ne]
    omega
  have hok : ∀ p ∈ (pyBatches data (C : Int)).enum,
      ∀ x ∈ pyDict p.2, (x.2.posmsgtype).isSome := by
    intro p hp x hx
    obtain ⟨hdict, hf⟩ := pyBatches_chunk_ok data C hC hfields hnodup p hp
    rw [hdict] at hx
    exact hf x hx
  have h1 := optimizedGo_spec flushOk dur mt sched (pyBatches data (C : Int)).enum hok [] []
  unfold optimized_write_position_mongo_database
  rw [hCne]
  simp only [Bool.false_eq_true, if_false]
  rw [h1]
  simp

/-- C9: in the batched writer a write-task failure (the flush oracle
reporting false for a (collection, chunk) pair) is caught inside
`perform_write`: the run always completes and returns a `write_stats`
mapping (never an error), the trace of attempted bulk calls is exactly the
trace of the same run with an always-succeeding oracle (so a failure stops
neither the other tasks of its chunk nor any later chunk), and the
returned mapping holds exactly one entry per attempted task whose flush
succeeded — a failed task contributes no entry.  (The failure is also
printed/logged in the source; printing is not modelled.) -/
theorem claim_C9 (flushOk : List Char → Nat → Bool) (dur : List Char → Nat → Int)
    (data : List (String × PosRecord)) (C : Nat) (mt : Bool)
    (sched : Nat → List (List Char × Nat) → List (List Char × Nat))
    (hC : 0 < C) (hfields : ∀ x ∈ data, (x.2.posmsgtype).isSome)
    (hnodup : (data.map Prod.fst).Nodup) :
    ∃ stats trace,
      optimized_write_position_mongo_database flushOk dur data (C : Int) mt sched =
        (trace, Except.ok stats) ∧
      trace =
        (optimized_write_position_mongo_database (fun _ _ => true) dur data
          (C : Int) mt sched).1 ∧
      stats = (trace.filter (fun t => flushOk t.1 t.2.1)).map
        (fun t => (statsKey t.1 t.2.1, WriteStat.mk t.2.2 (dur t.1 t.2.1))) := by
  have hrun := optimized_run_eq flushOk dur data C mt sched hC hfields hnodup
  have hrun2 : (optimized_write_position_mongo_database (fun _ _ => true) dur data
      (C : Int) mt sched).1 = goTrace mt sched (pyBatches data (C : Int)).enum := by
    rw [optimized_run_eq (fun _ _ => true) dur data C mt sched hC hfields hnodup]
  exact ⟨_, _, hrun, hrun2.symm, rfl⟩

/-- Witness for C9: two records, chunk size 1, surface-collection flushes
forced to fail: the run completes, the trace equals the all-success trace,
and the stats hold exactly the successful tasks. -/
theorem claim_C9_witness :
    ∃ stats trace,
      optimized_write_position_mongo_database
        (fun c _ => !(c == SURFACE_COLLECTION)) zeroDurO
        [("A", recPos), ("B", recSur)] ((1 : Nat) : Int) false idSched =
        (trace, Except.ok stats) ∧
      trace =
        (optimized_write_position_mongo_database (fun _ _ => true) zeroDurO
          [("A", recPos), ("B", recSur)] ((1 : Nat) : Int) false idSched).1 ∧
      stats = (trace.filter (fun t => (fun c _ => !(c == SURFACE_COLLECTION)) t.1 t.2.1)).map
        (fun t => (statsKey t.1 t.2.1, WriteStat.mk t.2.2 (zeroDurO t.1 t.2.1))) :=
  claim_C9 (fun c _ => !(c == SURFACE_COLLECTION)) zeroDurO
    [("A", recPos), ("B", recSur)] 1 false idSched
    (by decide) (by decide) (by decide)

theorem goTrace_perm (sched : Nat → List (List Char × Nat) → List (List Char × Nat))
    (hsched : ∀ k ts, List.Perm (sched k ts) ts)
    (ks : List (Nat × List (String × PosRecord))) :
    (goTrace true sched ks).Perm (goTrace false sched ks) := by
  induction ks with
  | nil => exact List.Perm.refl _
  | cons hd tl ih =>
    obtain ⟨k, chunk⟩ := hd
    simp only [goTrace, List.map_cons, List.flatten_cons]
    have hblock : ((chunkTasks true sched k chunk).map (fun t => (t.1, k, t.2))).Perm
        ((chunkTasks false sched k chunk).map (fun t => (t.1, k, t.2))) := by
      rcases hE : chunkBuckets (pyDict chunk) with e | b
      · simp only [chunkTasks, hE]
        exact List.Perm.refl _
      · obtain ⟨u, p, sx⟩ := b
        simp only [chunkTasks, hE, if_true]
        exact (hsched k (chunkTaskList u p sx)).map _
    exact hblock.append ih

/-- C10: with every flush call succeeding, the batched writer returns the
same `write_stats` mapping whether `use_multithreading` is True or False:
the two runs both complete, and their stats lists are permutations of one
another (hence the same key set and the same entry — in particular the
same `num_operations` — per key); the concurrency flag changes only the
execution schedule, modelled by the per-chunk task reordering `sched`,
never which writes are issued or which statistics keys are produced. -/
theorem claim_C10 (flushOk : List Char → Nat → Bool) (dur : List Char → Nat → Int)
    (data : List (String × PosRecord)) (C : Nat)
    (sched : Nat → List (List Char × Nat) → List (List Char × Nat))
    (hC : 0 < C) (hfields : ∀ x ∈ data, (x.2.posmsgtype).isSome)
    (hnodup : (data.map Prod.fst).Nodup)
    (hsched : ∀ k ts, List.Perm (sched k ts) ts)
    (_hflushOk : ∀ c k, flushOk c k = true) :
    ∃ statsT statsF traceT traceF,
      optimized_write_position_mongo_database flushOk dur data (C : Int) true sched =
        (traceT, Except.ok statsT) ∧
      optimized_write_position_mongo_database flushOk dur data (C : Int) false sched =
        (traceF, Except.ok statsF) ∧
      statsT.Perm statsF ∧
      (∀ e, e ∈ statsT ↔ e ∈ statsF) := by
  have hT := optimized_run_eq flushOk dur data C true sched hC hfields hnodup
  have hF := optimized_run_eq flushOk dur data C false sched hC hfields hnodup
  have hperm : (((goTrace true sched (pyBatches data (C : Int)).enum).filter
      (fun t => flushOk t.1 t.2.1)).map
      (fun t => (statsKey t.1 t.2.1, WriteStat.mk t.2.2 (dur t.1 t.2.1)))).Perm
      (((goTrace false sched (pyBatches data (C : Int)).enum).filter
      (fun t => flushOk t.1 t.2.1)).map
      (fun t => (statsKey t.1 t.2.1, WriteStat.mk t.2.2 (dur t.1 t.2.1)))) :=
    ((goTrace_perm sched hsched (pyBatches data (C : Int)).enum).filter _).map _
  exact ⟨_, _, _, _, hT, hF, hperm, fun e => hperm.mem_iff⟩

/-- Witness for C10 at a concrete three-record input, chunk size 2 and a
reversing (hence permuting) schedule. -/
theorem claim_C10_witness :
    ∃ statsT statsF traceT traceF,
      optimized_write_position_mongo_database okFlushO zeroDurO
        [("A", recPos), ("B", recSur), ("D", recOdd)] ((2 : Nat) : Int) true
        (fun _ ts => ts.reverse) = (traceT, Except.ok statsT) ∧
      optimized_write_position_mongo_database okFlushO zeroDurO
        [("A", recPos), ("B", recSur), ("D", recOdd)] ((2 : Nat) : Int) false
        (fun _ ts => ts.reverse) = (traceF, Except.ok statsF) ∧
      statsT.Perm statsF ∧
      (∀ e, e ∈ statsT ↔ e ∈ statsF) :=
  claim_C10 okFlushO zeroDurO [("A", recPos), ("B", recSur), ("D", recOdd)] 2
    (fun _ ts => ts.reverse) (by decide) (by decide) (by decide)
    (fun _ ts => ts.reverse_perm) (fun _ _ => rfl)

/-! ### The stats aggregator -/

/-- C1 counterexample: with the naive mapping holding the key
"flightcollection" and the batched mapping holding the composite key
"flightcollection_batch_0" — both referring to the single destination
flightcollection — `compare_results` produces 2 rows, not the 1 row per
distinct destination name the claim predicts: the row set is the union of
the RAW KEYS of the two mappings, and every chunk-scoped composite key of
the batched mapping gets its own row. -/
theorem claim_C1_counterexample :
    (compare_results [(FLIGHT_COLLECTION, WriteStat.mk 1 0)]
      [(statsKey FLIGHT_COLLECTION 0, WriteStat.mk 1 0)]).length = 2 ∧
    (compare_results [(FLIGHT_COLLECTION, WriteStat.mk 1 0)]
      [(statsKey FLIGHT_COLLECTION 0, WriteStat.mk 1 0)]).map CompareRow.collection =
      [FLIGHT_COLLECTION, statsKey FLIGHT_COLLECTION 0] := by
  constructor <;> rfl

/-- C1 (amended): the aggregator produces exactly one row per distinct KEY
in the union of the two mappings' key sets (for the batched mapping these
are the chunk-scoped composite keys, so they get rows of their own in
addition to any plain destination-name keys of the naive mapping); a key
present in only one mapping still produces a row, with zero for the
missing side: a row whose key is absent from the naive mapping reports 0
for the naive operation count and duration, and a row whose key prefixes
no batched key reports 0 for the batched sums. -/
theorem claim_C1 (original_stats optimized_stats : List (List Char × WriteStat)) :
    ((compare_results original_stats optimized_stats).map CompareRow.collection).Nodup ∧
    (∀ c, c ∈ (compare_results original_stats optimized_stats).map
        CompareRow.collection ↔
      (c ∈ original_stats.map Prod.fst ∨ c ∈ optimized_stats.map Prod.fst)) ∧
    (∀ row ∈ compare_results original_stats optimized_stats,
      (row.collection ∉ original_stats.map Prod.fst →
        row.orig_ops = 0 ∧ row.orig_time = 0) ∧
      ((∀ e ∈ optimized_stats, (row.collection).isPrefixOf e.1 = false) →
        row.opt_ops = 0 ∧ row.opt_time = 0)) := by
  have hmapcoll : (compare_results original_stats optimized_stats).map
      CompareRow.collection =
      (original_stats.map Prod.fst ++ optimized_stats.map Prod.fst).dedup := by
    unfold compare_results
    rw [List.map_map]
    exact List.map_id _
  refine ⟨?_, ?_, ?_⟩
  · rw [hmapcoll]
    exact List.nodup_dedup _
  · intro c
    rw [hmapcoll, List.mem_dedup, List.mem_append]
  · intro row hrow
    obtain ⟨c, _, hc⟩ := List.mem_map.mp hrow
    constructor
    · intro habs
      rw [← hc] at habs ⊢
      have hlook : original_stats.lookup c = none := by
        rw [List.lookup_eq_none_iff]
        intro p hp
        simp only [bne_iff_ne, ne_eq]
        intro he
        exact habs (by rw [he]; exact List.mem_map_of_mem Prod.fst hp)
      constructor <;> simp [hlook]
    · intro hnopre
      rw [← hc] at hnopre ⊢
      have hfil : optimized_stats.filter (fun e => c.isPrefixOf e.1) = [] := by
        rw [List.filter_eq_nil_iff]
        intro e he
        simp only [Bool.not_eq_true]
        exact hnopre e he
      constructor <;> simp [hfil]

/-- Witness for the amended C1 at concrete mappings: a naive key, a
batched composite key extending it, and a batched-only key. -/
theorem claim_C1_witness :
    ((compare_results [(FLIGHT_COLLECTION, WriteStat.mk 2 1)]
      [(statsKey FLIGHT_COLLECTION 0, WriteStat.mk 2 1),
       (statsKey POSITION_COLLECTION 0, WriteStat.mk 1 1)]).map
        CompareRow.collection).Nodup ∧
    (∀ c, c ∈ (compare_results [(FLIGHT_COLLECTION, WriteStat.mk 2 1)]
      [(statsKey FLIGHT_COLLECTION 0, WriteStat.mk 2 1),
       (statsKey POSITION_COLLECTION 0, WriteStat.mk 1 1)]).map
        CompareRow.collection ↔
      (c ∈ [(FLIGHT_COLLECTION, WriteStat.mk 2 1)].map Prod.fst ∨
       c ∈ [(statsKey FLIGHT_COLLECTION 0, WriteStat.mk 2 1),
            (statsKey POSITION_COLLECTION 0, WriteStat.mk 1 1)].map Prod.fst)) ∧
    (∀ row ∈ compare_results [(FLIGHT_COLLECTION, WriteStat.mk 2 1)]
      [(statsKey FLIGHT_COLLECTION 0, WriteStat.mk 2 1),
       (statsKey POSITION_COLLECTION 0, WriteStat.mk 1 1)],
      (row.collection ∉ [(FLIGHT_COLLECTION, WriteStat.mk 2 1)].map Prod.fst →
        row.orig_ops = 0 ∧ row.orig_time = 0) ∧
      ((∀ e ∈ [(statsKey FLIGHT_COLLECTION 0, WriteStat.mk 2 1),
               (statsKey POSITION_COLLECTION 0, WriteStat.mk 1 1)],
          (row.collection).isPrefixOf e.1 = false) →
        row.opt_ops = 0 ∧ row.opt_time = 0)) :=
  claim_C1 [(FLIGHT_COLLECTION, WriteStat.mk 2 1)]
    [(statsKey FLIGHT_COLLECTION 0, WriteStat.mk 2 1),
     (statsKey POSITION_COLLECTION 0, WriteStat.mk 1 1)]

/-! ### Prefix matching of stats keys -/

theorem isPrefixOf_append_self (c x : List Char) : (c.isPrefixOf (c ++ x)) = true := by
  induction c with
  | nil => simp [List.isPrefixOf]
  | cons a as ih => simp [List.isPrefixOf_cons₂, ih]

theorem isPrefixOf_false_of_head_ne (a b : Char) (as bs : List Char)
    (h : (a == b) = false) : ((a :: as).isPrefixOf (b :: bs)) = false := by
  rw [List.isPrefixOf_cons₂, h]
  rfl

theorem coll_isPrefixOf_statsKey (c d : List Char) (k : Nat)
    (hc : c = FLIGHT_COLLECTION ∨ c = POSITION_COLLECTION ∨ c = SURFACE_COLLECTION)
    (hd : d = FLIGHT_COLLECTION ∨ d = POSITION_COLLECTION ∨ d = SURFACE_COLLECTION) :
    (d.isPrefixOf (statsKey c k)) = (c == d) := by
  have hF : FLIGHT_COLLECTION = 'f' :: "lightcollection".data := by decide
  have hP : POSITION_COLLECTION = 'p' :: "ositioncollection".data := by decide
  have hS : SURFACE_COLLECTION = 's' :: "urfacecollection".data := by decide
  unfold statsKey
  rcases hc with rfl | rfl | rfl <;> rcases hd with rfl | rfl | rfl
  · rw [beq_self_eq_true, List.append_assoc]
    exact isPrefixOf_append_self _ _
  · rw [List.append_assoc, hF, hP, List.cons_append,
      isPrefixOf_false_of_head_ne _ _ _ _ (by decide)]
    decide
  · rw [List.append_assoc, hF, hS, List.cons_append,
      isPrefixOf_false_of_head_ne _ _ _ _ (by decide)]
    decide
  · rw [List.append_assoc, hP, hF, List.cons_append,
      isPrefixOf_false_of_head_ne _ _ _ _ (by decide)]
    decide
  · rw [beq_self_eq_true, List.append_assoc]
    exact isPrefixOf_append_self _ _
  · rw [List.append_assoc, hP, hS, List.cons_append,
      isPrefixOf_false_of_head_ne _ _ _ _ (by decide)]
    decide
  · rw [List.append_assoc, hS, hF, List.cons_append,
      isPrefixOf_false_of_head_ne _ _ _ _ (by decide)]
    decide
  · rw [List.append_assoc, hS, hP, List.cons_append,
      isPrefixOf_false_of_head_ne _ _ _ _ (by decide)]
    decide
  · rw [beq_self_eq_true, List.append_assoc]
    exact isPrefixOf_append_self _ _

theorem chunkTaskList_mem_names (ups : List WriteOp) (poss surs : List PosRecord)
    (t : List Char × Nat) (ht : t ∈ chunkTaskList ups poss surs) :
    t.1 = FLIGHT_COLLECTION ∨ t.1 = POSITION_COLLECTION ∨ t.1 = SURFACE_COLLECTION := by
  unfold chunkTaskList at ht
  rcases List.mem_append.mp ht with h1 | h23
  · rcases List.mem_append.mp h1 with h1 | h2
    · left
      by_cases hu : ups.isEmpty <;> simp [hu] at h1
      rw [h1]
    · right; left
      by_cases hp : poss.isEmpty <;> simp [hp] at h2
      rw [h2]
  · right; right
    by_cases hs : surs.isEmpty <;> simp [hs] at h23
    rw [h23]

theorem sum_chunkTaskList_filter (ups : List WriteOp) (poss surs : List PosRecord)
    (d : List Char)
    (hd : d = FLIGHT_COLLECTION ∨ d = POSITION_COLLECTION ∨ d = SURFACE_COLLECTION) :
    (((chunkTaskList ups poss surs).filter (fun t => t.1 == d)).map Prod.snd).sum =
      if d = FLIGHT_COLLECTION then ups.length
      else if d = POSITION_COLLECTION then poss.length
      else surs.length := by
  have hFP : (FLIGHT_COLLECTION == POSITION_COLLECTION) = false := by decide
  have hFS : (FLIGHT_COLLECTION == SURFACE_COLLECTION) = false := by decide
  have hPF : (POSITION_COLLECTION == FLIGHT_COLLECTION) = false := by decide
  have hPS : (POSITION_COLLECTION == SURFACE_COLLECTION) = false := by decide
  have hSF : (SURFACE_COLLECTION == FLIGHT_COLLECTION) = false := by decide
  have hSP : (SURFACE_COLLECTION == POSITION_COLLECTION) = false := by decide
  unfold chunkTaskList
  rcases hd with rfl | rfl | rfl <;>
    by_cases hu : ups.isEmpty <;> by_cases hp : poss.isEmpty <;>
      by_cases hs : surs.isEmpty <;>
    simp_all [List.filter_append, List.filter_cons, List.isEmpty_iff, hFP, hFS,
      hPF, hPS, hSF, hSP]

theorem chunkBlock_sum (mt : Bool)
    (sched : Nat → List (List Char × Nat) → List (List Char × Nat))
    (hsched : ∀ k ts, List.Perm (sched k ts) ts) (k : Nat)
    (chunk : List (String × PosRecord)) (d : List Char)
    (hd : d = FLIGHT_COLLECTION ∨ d = POSITION_COLLECTION ∨ d = SURFACE_COLLECTION)
    (hdict : pyDict chunk = chunk)
    (hf : ∀ x ∈ chunk, (x.2.posmsgtype).isSome) :
    ((((chunkTasks mt sched k chunk).map (fun t => (t.1, k, t.2))).filter
        (fun t => d.isPrefixOf (statsKey t.1 t.2.1))).map (fun t => t.2.2)).sum =
      if d = FLIGHT_COLLECTION then chunk.length
      else if d = POSITION_COLLECTION then chunk.countP isPositionItem
      else chunk.countP (fun x => !isPositionItem x) := by
  have hbuck := chunkBuckets_eq chunk hf
  have htasks : chunkTasks mt sched k chunk =
      (if mt then
        sched k (chunkTaskList (chunk.map (fun x => WriteOp.updateOne x.1 x.2))
          ((chunk.filter isPositionItem).map Prod.snd)
          ((chunk.filter (fun x => !isPositionItem x)).map Prod.snd))
      else
        chunkTaskList (chunk.map (fun x => WriteOp.updateOne x.1 x.2))
          ((chunk.filter isPositionItem).map Prod.snd)
          ((chunk.filter (fun x => !isPositionItem x)).map Prod.snd)) := by
    unfold chunkTasks
    rw [hdict, hbuck]
  rw [htasks]
  have hgen : ∀ tasks : List (List Char × Nat),
      (∀ t ∈ tasks,
        t.1 = FLIGHT_COLLECTION ∨ t.1 = POSITION_COLLECTION ∨ t.1 = SURFACE_COLLECTION) →
      (((tasks.map (fun t => (t.1, k, t.2))).filter
          (fun t => d.isPrefixOf (statsKey t.1 t.2.1))).map (fun t => t.2.2)).sum =
        ((tasks.filter (fun t => t.1 == d)).map Prod.snd).sum := by
    intro tasks hmem
    rw [List.filter_map, List.map_map]
    have hfil : tasks.filter ((fun t => d.isPrefixOf (statsKey t.1 t.2.1)) ∘
        (fun t => (t.1, k, t.2))) = tasks.filter (fun t => t.1 == d) := by
      apply List.filter_congr
      intro t ht
      simp only [Function.comp]
      exact coll_isPrefixOf_statsKey t.1 d k (hmem t ht) hd
    rw [hfil]
    rfl
  set T0 := chunkTaskList (chunk.map (fun x => WriteOp.updateOne x.1 x.2))
    ((chunk.filter isPositionItem).map Prod.snd)
    ((chunk.filter (fun x => !isPositionItem x)).map Prod.snd) with hT0
  have hsum0 : ((T0.filter (fun t => t.1 == d)).map Prod.snd).sum =
      if d = FLIGHT_COLLECTION then chunk.length
      else if d = POSITION_COLLECTION then chunk.countP isPositionItem
      else chunk.countP (fun x => !isPositionItem x) := by
    rw [hT0, sum_chunkTaskList_filter _ _ _ d hd]
    rcases hd with rfl | rfl | rfl <;>
      simp [List.countP_eq_length_filter]
  cases mt
  · simp only [Bool.false_eq_true, if_false]
    rw [hgen T0 (fun t ht => chunkTaskList_mem_names _ _ _ t ht), hsum0]
  · simp only [if_true]
    have hmemT : ∀ t ∈ sched k T0,
        t.1 = FLIGHT_COLLECTION ∨ t.1 = POSITION_COLLECTION ∨
          t.1 = SURFACE_COLLECTION := by
      intro t ht
      exact chunkTaskList_mem_names _ _ _ t ((hsched k T0).mem_iff.mp ht)
    rw [hgen (sched k T0) hmemT]
    have hperm : ((sched k T0).filter (fun t => t.1 == d)).Perm
        (T0.filter (fun t => t.1 == d)) := (hsched k T0).filter _
    rw [(hperm.map Prod.snd).sum_eq, hsum0]

theorem optStats_prefix_sum (durO : List Char → Nat → Int)
    (data : List (String × PosRecord)) (C : Nat) (mt : Bool)
    (sched : Nat → List (List Char × Nat) → List (List Char × Nat))
    (hC : 0 < C) (hfields : ∀ x ∈ data, (x.2.posmsgtype).isSome)
    (hnodup : (data.map Prod.fst).Nodup)
    (hsched : ∀ k ts, List.Perm (sched k ts) ts) (d : List Char)
    (hd : d = FLIGHT_COLLECTION ∨ d = POSITION_COLLECTION ∨ d = SURFACE_COLLECTION) :
    ((((goTrace mt sched (pyBatches data (C : Int)).enum).map
        (fun t => (statsKey t.1 t.2.1, WriteStat.mk t.2.2 (durO t.1 t.2.1)))).filter
        (fun e => d.isPrefixOf e.1)).map (fun e => e.2.num_operations)).sum =
      if d = FLIGHT_COLLECTION then data.length
      else if d = POSITION_COLLECTION then data.countP isPositionItem
      else data.countP (fun x => !isPositionItem x) := by
  have hok3 := pyBatches_chunk_ok data C hC hfields hnodup
  rw [List.filter_map, List.map_map]
  show ((((goTrace mt sched (pyBatches data (C : Int)).enum).filter
      (fun t => d.isPrefixOf (statsKey t.1 t.2.1))).map (fun t => t.2.2))).sum = _
  unfold goTrace
  rw [List.filter_flatten, List.map_flatten, List.map_map, List.map_map]
  rw [List.sum_flatten, List.map_map]
  have hcongr : ((pyBatches data (C : Int)).enum.map
      (List.sum ∘ ((List.map fun t => t.2.2) ∘
        List.filter fun t => d.isPrefixOf (statsKey t.1 t.2.1)) ∘
        fun p => (chunkTasks mt sched p.1 p.2).map (fun t => (t.1, p.1, t.2)))) =
      (pyBatches data (C : Int)).enum.map (fun p =>
        if d = FLIGHT_COLLECTION then p.2.length
        else if d = POSITION_COLLECTION then p.2.countP isPositionItem
        else p.2.countP (fun x => !isPositionItem x)) := by
    apply List.map_congr_left
    intro p hp
    obtain ⟨hdict, hf⟩ := hok3 p hp
    simp only [Function.comp]
    exact chunkBlock_sum mt sched hsched p.1 p.2 d hd hdict hf
  rw [hcongr]
  have hsnd : ∀ (F : List (String × PosRecord) → Nat),
      (pyBatches data (C : Int)).enum.map (fun p => F p.2) =
        (pyBatches data (C : Int)).map F := by
    intro F
    have := List.enum_map_snd (pyBatches data (C : Int))
    calc (pyBatches data (C : Int)).enum.map (fun p => F p.2)
        = ((pyBatches data (C : Int)).enum.map Prod.snd).map F := by
          rw [List.map_map]
          rfl
      _ = (pyBatches data (C : Int)).map F := by rw [this]
  rcases hd with rfl | rfl | rfl
  · rw [if_pos rfl]
    rw [show (fun (p : Nat × List (String × PosRecord)) =>
        if FLIGHT_COLLECTION = FLIGHT_COLLECTION then p.2.length
        else if FLIGHT_COLLECTION = POSITION_COLLECTION then p.2.countP isPositionItem
        else p.2.countP (fun x => !isPositionItem x)) =
      (fun p => p.2.length) from by funext p; rw [if_pos rfl]]
    rw [hsnd List.length]
    rw [← List.length_flatten, pyBatches_flatten data C hC]
  · rw [if_neg (by decide), if_pos rfl]
    rw [show (fun (p : Nat × List (String × PosRecord)) =>
        if POSITION_COLLECTION = FLIGHT_COLLECTION then p.2.length
        else if POSITION_COLLECTION = POSITION_COLLECTION then p.2.countP isPositionItem
        else p.2.countP (fun x => !isPositionItem x)) =
      (fun p => p.2.countP isPositionItem) from by
        funext p
        rw [if_neg (by decide), if_pos rfl]]
    rw [hsnd (List.countP isPositionItem)]
    rw [← List.countP_flatten, pyBatches_flatten data C hC]
  · rw [if_neg (by decide), if_neg (by decide)]
    rw [show (fun (p : Nat × List (String × PosRecord)) =>
        if SURFACE_COLLECTION = FLIGHT_COLLECTION then p.2.length
        else if SURFACE_COLLECTION = POSITION_COLLECTION then p.2.countP isPositionItem
        else p.2.countP (fun x => !isPositionItem x)) =
      (fun p => p.2.countP (fun x => !isPositionItem x)) from by
        funext p
        rw [if_neg (by decide), if_neg (by decide)]]
    rw [hsnd (List.countP (fun x => !isPositionItem x))]
    rw [← List.countP_flatten, pyBatches_flatten data C hC]

theorem naive_lookup_getD (dur : List Char → Int) (fl pos sur : List WriteOp)
    (d : List Char)
    (hd : d = FLIGHT_COLLECTION ∨ d = POSITION_COLLECTION ∨ d = SURFACE_COLLECTION) :
    Option.getD
      (Option.map WriteStat.num_operations
        (List.lookup d
          (List.map (fun x => (x.1, WriteStat.mk x.2.length (dur x.1)))
            (List.filter (fun x => !x.2.isEmpty)
              [(FLIGHT_COLLECTION, fl), (POSITION_COLLECTION, pos),
               (SURFACE_COLLECTION, sur)])))) 0 =
      if d = FLIGHT_COLLECTION then fl.length
      else if d = POSITION_COLLECTION then pos.length
      else sur.length := by
  have hFP : (FLIGHT_COLLECTION == POSITION_COLLECTION) = false := by decide
  have hFS : (FLIGHT_COLLECTION == SURFACE_COLLECTION) = false := by decide
  have hPF : (POSITION_COLLECTION == FLIGHT_COLLECTION) = false := by decide
  have hPS : (POSITION_COLLECTION == SURFACE_COLLECTION) = false := by decide
  have hSF : (SURFACE_COLLECTION == FLIGHT_COLLECTION) = false := by decide
  have hSP : (SURFACE_COLLECTION == POSITION_COLLECTION) = false := by decide
  have hFP' : ¬(FLIGHT_COLLECTION = POSITION_COLLECTION) := by decide
  have hFS' : ¬(FLIGHT_COLLECTION = SURFACE_COLLECTION) := by decide
  have hPF' : ¬(POSITION_COLLECTION = FLIGHT_COLLECTION) := by decide
  have hPS' : ¬(POSITION_COLLECTION = SURFACE_COLLECTION) := by decide
  have hSF' : ¬(SURFACE_COLLECTION = FLIGHT_COLLECTION) := by decide
  have hSP' : ¬(SURFACE_COLLECTION = POSITION_COLLECTION) := by decide
  rcases hd with rfl | rfl | rfl <;>
    by_cases hfl : fl = [] <;> by_cases hpos : pos = [] <;>
      by_cases hsur : sur = [] <;>
    simp [List.filter_cons, List.lookup_cons, List.isEmpty_iff, hFP, hFS, hPF,
      hPS, hSF, hSP, hFP', hFS', hPF', hPS', hSF', hSP', hfl, hpos, hsur]

/-- C2: when both strategies run over the identical record set (with the
discriminator present on every record, distinct identities as produced by
a Python dict, a positive chunk size and every flush call succeeding),
then for every destination, the batched operation counts summed across all
chunks of that destination (the aggregator's prefix-sum over the batched
mapping) equal the naive operation count for that destination: total
writes are conserved across chunking.  This holds for all three
destinations, with a missing naive key read as 0 — in particular for every
destination present in both mappings. -/
theorem claim_C2 (flushOkN : List Char → Bool) (durN : List Char → Int)
    (flushOkO : List Char → Nat → Bool) (durO : List Char → Nat → Int)
    (data : List (String × PosRecord)) (C : Nat) (mt : Bool)
    (sched : Nat → List (List Char × Nat) → List (List Char × Nat))
    (hC : 0 < C) (hfields : ∀ x ∈ data, (x.2.posmsgtype).isSome)
    (hnodup : (data.map Prod.fst).Nodup)
    (hsched : ∀ k ts, List.Perm (sched k ts) ts)
    (hOkN : ∀ c, flushOkN c = true) (hOkO : ∀ c k, flushOkO c k = true) :
    ∃ sN trN sO trO,
      original_write_position_mongo_database flushOkN durN data = (trN, Except.ok sN) ∧
      optimized_write_position_mongo_database flushOkO durO data (C : Int) mt sched =
        (trO, Except.ok sO) ∧
      ∀ d, (d = FLIGHT_COLLECTION ∨ d = POSITION_COLLECTION ∨ d = SURFACE_COLLECTION) →
        ((sO.filter (fun e => d.isPrefixOf e.1)).map
          (fun e => e.2.num_operations)).sum =
        (((sN.lookup d).map WriteStat.num_operations).getD 0) := by
  have hchar := naiveOperations_eq data hfields
  have hloop := flushLoop_all_ok flushOkN durN
    [(FLIGHT_COLLECTION, data.map (fun x => WriteOp.updateOne x.1 x.2)),
     (POSITION_COLLECTION, (data.filter isPositionItem).map (fun x => WriteOp.insertOne x.2)),
     (SURFACE_COLLECTION, (data.filter (fun x => !isPositionItem x)).map
       (fun x => WriteOp.insertOne x.2))]
    (by intro x _; exact hOkN x.1)
  have hresN : original_write_position_mongo_database flushOkN durN data =
      flushLoop flushOkN durN
        [(FLIGHT_COLLECTION, data.map (fun x => WriteOp.updateOne x.1 x.2)),
         (POSITION_COLLECTION,
           (data.filter isPositionItem).map (fun x => WriteOp.insertOne x.2)),
         (SURFACE_COLLECTION,
           (data.filter (fun x => !isPositionItem x)).map
             (fun x => WriteOp.insertOne x.2))] := by
    simp only [original_write_position_mongo_database, hchar]
  rw [hloop] at hresN
  have hresO := optimized_run_eq flushOkO durO data C mt sched hC hfields hnodup
  have hfilO : (goTrace mt sched (pyBatches data (C : Int)).enum).filter
      (fun t => flushOkO t.1 t.2.1) =
      goTrace mt sched (pyBatches data (C : Int)).enum :=
    List.filter_eq_self.mpr (fun a _ => hOkO a.1 a.2.1)
  rw [hfilO] at hresO
  refine ⟨_, _, _, _, hresN, hresO, ?_⟩
  intro d hd
  rw [optStats_prefix_sum durO data C mt sched hC hfields hnodup hsched d hd]
  rw [naive_lookup_getD durN _ _ _ d hd]
  rcases hd with rfl | rfl | rfl
  · rw [if_pos rfl, if_pos rfl, List.length_map]
  · rw [if_neg (by decide), if_pos rfl, if_neg (by decide), if_pos rfl,
      List.length_map, List.countP_eq_length_filter]
  · rw [if_neg (by decide), if_neg (by decide), if_neg (by decide),
      if_neg (by decide), List.length_map, List.countP_eq_length_filter]

/-- Witness for C2 at a concrete mixed three-record set with chunk size 2:
the batched per-destination sums equal the naive per-destination counts. -/
theorem claim_C2_witness :
    ∃ sN trN sO trO,
      original_write_position_mongo_database okFlushN zeroDurN
        [("A", recPos), ("B", recSur), ("D", recPos)] = (trN, Except.ok sN) ∧
      optimized_write_position_mongo_database okFlushO zeroDurO
        [("A", recPos), ("B", recSur), ("D", recPos)] ((2 : Nat) : Int) false
        idSched = (trO, Except.ok sO) ∧
      ∀ d, (d = FLIGHT_COLLECTION ∨ d = POSITION_COLLECTION ∨ d = SURFACE_COLLECTION) →
        ((sO.filter (fun e => d.isPrefixOf e.1)).map
          (fun e => e.2.num_operations)).sum =
        (((sN.lookup d).map WriteStat.num_operations).getD 0) :=
  claim_C2 okFlushN zeroDurN okFlushO zeroDurO
    [("A", recPos), ("B", recSur), ("D", recPos)] 2 false idSched
    (by decide) (by decide) (by decide) (fun _ _ => List.Perm.refl _)
    (fun _ => rfl) (fun _ _ => rfl)

end MdbPerf
